import Mathlib

/-!
# LiveTable (livetable.js): row cache, request sequencing, pagination

A shallow embedding of the controller in
`standard/src/main/webapp/resources/js/xwiki/table/livetable.js`.

Modelling conventions.

* The numbers of the table and of its paginator are mathematical integers (each
  is a row index, a row count, a page number or a request counter, far below
  2^53, where the floating point operations used by the source are exact).
* `fetchedRows` is a JavaScript array.  It is modelled as the list of its slots
  `0 .. length-1`; a slot is a hole (no own property), the value `undefined`, or
  a row.  Reading a hole, `undefined` or an index past the end yields
  `undefined`, which is `none` on the Lean side.
* Rows are opaque, defined (truthy) values of an arbitrary type `Row`.
* `for (i in fetchedRows)` visits the own index properties in ascending order;
  the argument of `deleteAndShiftRows` is a number, so that `i >= indx` compares
  numbers.
* The thresholds of the tag cloud are doubles, see the section on the tag cloud.
* The DOM and the network are external.  What the table writes to them is kept
  in explicit fields of the state: the list of Ajax requests sent, the rows put
  in the display node, the page links put in the pagination nodes, and the log
  of `displayRows` calls.  What the table reads from them (the serialization of
  the filter controls) is a field as well.
-/

namespace LiveTable

/-! ## JavaScript arrays -/

/-- One slot of a JavaScript array: no own property, `undefined`, or a row. -/
inductive Slot (Row : Type) where
  | hole
  | undef
  | row (r : Row)
deriving DecidableEq, Repr

/-- A JavaScript array as the list of its slots `0 .. length-1`. -/
abbrev JSArray (Row : Type) := List (Slot Row)

/-- The value read from a slot; `none` stands for `undefined`. -/
def Slot.value {Row : Type} : Slot Row → Option Row
  | Slot.row r => some r
  | _ => none

/-- The slot that holds a stored value. -/
def toSlot {Row : Type} : Option Row → Slot Row
  | some r => Slot.row r
  | none => Slot.undef

/-- The expression `a[i]` for a natural index. -/
def readAt {Row : Type} (a : JSArray Row) (i : Nat) : Option Row :=
  match a[i]? with
  | some s => s.value
  | none => none

/-- The expression `a[i]` for an integer index; the model never stores a
property under a negative name, so such a read is `undefined`. -/
def read {Row : Type} (a : JSArray Row) (i : Int) : Option Row :=
  if i < 0 then none else readAt a i.toNat

/-- The assignment `a[i] = v`: an index past the end extends the array, the
slots in between being holes. -/
def setIndex {Row : Type} (a : JSArray Row) (i : Nat) (v : Option Row) : JSArray Row :=
  if i < a.length then a.set i (toSlot v)
  else a ++ List.replicate (i - a.length) Slot.hole ++ [toSlot v]

/-- Whether `i` is an own property of the array. -/
def isKey {Row : Type} (a : JSArray Row) (i : Nat) : Bool :=
  match a[i]? with
  | some Slot.hole => false
  | some _ => true
  | none => false

/-- The indices visited by `for (i in a)`: the own index properties, in
ascending order.  (The enumerable methods Prototype adds to `Array.prototype`
are visited as well; in `deleteAndShiftRows` the test `i >= indx` is false for
each of them, their names not being numeric.) -/
def forInKeys {Row : Type} (a : JSArray Row) : List Nat :=
  (List.range a.length).filter (fun i => isKey a i)

/-! ## Data model -/

/-- The parsed JSON response `{reqNo, offset, returnedrows, totalrows, rows}`. -/
structure Response (Row : Type) where
  reqNo : Int
  offset : Nat
  returnedrows : Nat
  totalrows : Int
  rows : List Row
deriving DecidableEq, Repr

/-- An Ajax request sent by `getRows`: the query parameters `offset`, `limit`,
`reqNo` and the filter string, and the display range captured by its
`onSuccess` closure. -/
structure Request where
  reqOffset : Int
  reqLimit : Int
  reqNo : Int
  filters : String
  displayOffset : Int
  displayLimit : Int
deriving DecidableEq, Repr

/-- What `refreshPagination` inserts in a pagination node. -/
inductive PageItem where
  | link (page : Int) (selected : Bool)
  | ellipsis
  | space
deriving DecidableEq, Repr

/-- The state of a `XWiki.widgets.LiveTable` with its paginator and filter.

* `limit`, `filters`, `totalRows`, `fetchedRows`, `lastoffset`, `sendReqNo`,
  `recvReqNo`, `json`: the fields of the same name of the table;
* `max`: the field `max` of the `LiveTablePagination`;
* `filter`: `some s` when the table has a `LiveTableFilter`, `s` being what its
  `serializeFilters()` returns for the present content of the filter controls,
  `none` when the table has no filter;
* `requests`: the Ajax requests sent so far, oldest first;
* `displayed`: the children of the display node, as (index, row);
* `pagination`: the content of a pagination node;
* `renderLog`: the arguments of the calls of `displayRows` so far. -/
structure Table (Row : Type) where
  limit : Int
  max : Int
  filter : Option String
  filters : String
  totalRows : Int
  fetchedRows : JSArray Row
  lastoffset : Int
  sendReqNo : Int
  recvReqNo : Int
  json : Option (Response Row)
  requests : List Request
  displayed : List (Int × Row)
  pagination : List PageItem
  renderLog : List (Int × Int)

/-! ## The row cache -/

/-- The integers `lo, lo+1, .., hi` visited by `for (i = lo; i <= hi; i++)`. -/
def countedLoop (lo hi : Int) : List Int :=
  (List.range (hi + 1 - lo).toNat).map (fun (k : Nat) => lo + (k : Int))

/-- The loop of `updateFetchedRows`:
`for (i = offset; i < offset + returnedrows; ++i) fetchedRows[i] = rows[i - offset]`. -/
def mergeRows {Row : Type} (a : JSArray Row) (json : Response Row) : JSArray Row :=
  (List.range json.returnedrows).foldl
    (fun (acc : JSArray Row) (k : Nat) => setIndex acc (json.offset + k) json.rows[k]?) a

/-- The method `updateFetchedRows(json)`. -/
def updateFetchedRows {Row : Type} (t : Table Row) (json : Response Row) : Table Row :=
  { t with
    json := some json
    totalRows := json.totalrows
    fetchedRows := mergeRows t.fetchedRows json }

/-- The method `deleteAndShiftRows(indx)`:
`for (i in fetchedRows) if (i >= indx) fetchedRows[i] = fetchedRows[i+1]`. -/
def shiftRows {Row : Type} (a : JSArray Row) (indx : Int) : JSArray Row :=
  (forInKeys a).foldl
    (fun (acc : JSArray Row) (i : Nat) =>
      if indx ≤ (i : Int) then setIndex acc i (readAt acc (i + 1)) else acc) a

/-- The method `deleteAndShiftRows(indx)` on the table. -/
def deleteAndShiftRows {Row : Type} (t : Table Row) (indx : Int) : Table Row :=
  { t with fetchedRows := shiftRows t.fetchedRows indx }

/-- The method `clearCache()`. -/
def clearCache {Row : Type} (t : Table Row) : Table Row :=
  { t with fetchedRows := [], totalRows := -1 }

/-! ## Pagination -/

/-- The value `Math.ceil(totalRows / limit)` (for `limit >= 1`). -/
def pageCount (totalRows limit : Int) : Int := -((-totalRows) / limit)

/-- The value `Math.floor(lastoffset / limit) + 1` (for `limit >= 1`). -/
def currentPage (lastoffset limit : Int) : Int := lastoffset / limit + 1

/-- The value `(!this.max) ? pages : this.max`. -/
def currentMax (max pages : Int) : Int := if max = 0 then pages else max

/-- The value `Math.floor(currentPage / currentMax) * currentMax - 1`
(for `currentMax >= 1`). -/
def startPage (cur cmax : Int) : Int := cur / cmax * cmax - 1

/-- The first value of `i` in the main loop: `(startPage <= 0) ? 1 : startPage`. -/
def blockStart (start : Int) : Int := if start ≤ 0 then 1 else start

/-- The bound of the main loop: `Math.min(startPage + currentMax + 1, pages)`. -/
def blockEnd (start cmax pages : Int) : Int := min (start + cmax + 1) pages

/-- The page numbers for which the main loop of `refreshPagination` inserts a
link, in order. -/
def blockPages (totalRows limit lastoffset max : Int) : List Int :=
  let pages := pageCount totalRows limit
  let cmax := currentMax max pages
  let start := startPage (currentPage lastoffset limit) cmax
  countedLoop (blockStart start) (blockEnd start cmax pages)

/-- The value of the loop variable `i` when the main loop is left. -/
def loopExit (totalRows limit lastoffset max : Int) : Int :=
  let pages := pageCount totalRows limit
  let cmax := currentMax max pages
  let start := startPage (currentPage lastoffset limit) cmax
  blockStart start + ((blockPages totalRows limit lastoffset max).length : Int)

/-- What is inserted before the main loop: page 1 when `startPage > 1`, followed
by " ... " when `startPage > 2`. -/
def firstItems (start : Int) : List PageItem :=
  if start > 1 then
    PageItem.link 1 false :: (if start > 2 then [PageItem.ellipsis] else [])
  else []

/-- What is inserted after the main loop, `i` being the value of the loop
variable: when `i < pages`, " ... " if `i + 1 < pages`, then the last page. -/
def lastItems (i pages : Int) : List PageItem :=
  if i < pages then
    (if i + 1 < pages then [PageItem.ellipsis] else []) ++ [PageItem.link pages false]
  else []

/-- The content `refreshPagination` gives to a pagination node. -/
def pageItems (totalRows limit lastoffset max : Int) : List PageItem :=
  let pages := pageCount totalRows limit
  let cur := currentPage lastoffset limit
  let start := startPage cur (currentMax max pages)
  firstItems start
    ++ (blockPages totalRows limit lastoffset max).flatMap
        (fun i => [PageItem.link i (decide (cur = i)), PageItem.space])
    ++ lastItems (loopExit totalRows limit lastoffset max) pages

/-- The page numbers of the links of a pagination content, in order. -/
def linkPages : List PageItem → List Int
  | [] => []
  | PageItem.link p _ :: rest => p :: linkPages rest
  | _ :: rest => linkPages rest

/-- The method `refreshPagination()` of the paginator of the table. -/
def refreshPagination {Row : Type} (t : Table Row) : Table Row :=
  { t with pagination := pageItems t.totalRows t.limit t.lastoffset t.max }

/-! ## Display and fetch -/

/-- The rows `displayRows` appends to the display node: for `i` from `off` to
`f`, the row `fetchedRows[i]` when it is truthy. -/
def visibleRows {Row : Type} (a : JSArray Row) (off f : Int) : List (Int × Row) :=
  (countedLoop off f).filterMap (fun i => (read a i).map (fun r => (i, r)))

/-- The method `displayRows(offset, limit)`. -/
def displayRows {Row : Type} (t : Table Row) (offset limit : Int) : Table Row :=
  let f := if offset + limit - 1 > t.totalRows then t.totalRows else offset + limit - 1
  let off := if t.totalRows > 0 then offset else 0
  refreshPagination
    { t with
      displayed := visibleRows t.fetchedRows off f
      renderLog := t.renderLog ++ [(offset, limit)] }

/-- What `getRows` appends to the URL for the filters: the serialization of the
filter controls when the table has a filter, nothing otherwise. -/
def urlFilters {Row : Type} (t : Table Row) : String :=
  match t.filter with
  | some s => s
  | none => ""

/-- The synchronous part of `getRows(reqOffset, reqLimit, displayOffset,
displayLimit)`: the counter is incremented, the filters are serialized and
stored, and the request is sent. -/
def getRows {Row : Type} (t : Table Row) (reqOffset reqLimit displayOffset displayLimit : Int) :
    Table Row :=
  { t with
    sendReqNo := t.sendReqNo + 1
    filters := (match t.filter with
      | some s => s
      | none => t.filters)
    requests := t.requests ++
      [{ reqOffset := reqOffset, reqLimit := reqLimit, reqNo := t.sendReqNo + 1,
         filters := urlFilters t,
         displayOffset := displayOffset, displayLimit := displayLimit }] }

/-- The `onSuccess` handler of the request sent by
`getRows(_, _, displayOffset, displayLimit)`, called with the parsed response. -/
def onSuccess {Row : Type} (t : Table Row) (res : Response Row)
    (displayOffset displayLimit : Int) : Table Row :=
  if res.reqNo < t.sendReqNo then t
  else displayRows (updateFetchedRows { t with recvReqNo := res.reqNo } res)
    displayOffset displayLimit

/-- One turn of the scan of `showRows`:
`if (fetchedRows[i] == undefined) { if (min == -1) min = i; max = i; }`. -/
def scanStep {Row : Type} (a : JSArray Row) (mm : Int × Int) (i : Int) : Int × Int :=
  if (read a i).isNone then (if mm.1 = -1 then i else mm.1, i) else mm

/-- The pair `(min, max)` after the scan of `showRows(offset, limit)`. -/
def scanMissing {Row : Type} (a : JSArray Row) (offset limit : Int) : Int × Int :=
  (countedLoop offset (offset + limit - 1)).foldl (scanStep a) (-1, -1)

/-- The result of a method that can throw: `Except.ok t` when it returns, `t`
being the table afterwards; `Except.error t` when it throws a TypeError, `t`
being the table at that moment. -/
abbrev Outcome (Row : Type) := Except (Table Row) (Table Row)

/-- The table after a call, whether it returned or threw. -/
def tableAfter {Row : Type} : Outcome Row → Table Row
  | Except.ok t => t
  | Except.error t => t

/-- Whether a call returned without throwing. -/
def returned {Row : Type} : Outcome Row → Bool
  | Except.ok _ => true
  | Except.error _ => false

/-- The method `updateLocationHash()`.  It starts by evaluating
`this.filter.serializeFilters()`, which throws a TypeError when the table has no
filter; what it writes is `window.location.hash`, which is not part of the
state. -/
def updateLocationHash {Row : Type} (t : Table Row) : Outcome Row :=
  match t.filter with
  | none => Except.error t
  | some _ => Except.ok t

/-- The method `showRows(offset, limit)`.  The field `permalinks` is
`options.permalinks || true`, hence always true, and `updateLocationHash()` is
called on every call. -/
def showRows {Row : Type} (t : Table Row) (offset limit : Int) : Outcome Row :=
  match updateLocationHash { t with lastoffset := offset } with
  | Except.error e => Except.error e
  | Except.ok t1 =>
    Except.ok
      (if t1.totalRows = -1 then getRows t1 offset limit offset limit
       else
        refreshPagination
          (if (scanMissing t1.fetchedRows offset limit).1 = -1 then displayRows t1 offset limit
           else getRows t1 (scanMissing t1.fetchedRows offset limit).1
             ((scanMissing t1.fetchedRows offset limit).2
               - (scanMissing t1.fetchedRows offset limit).1 + 1) offset limit))

/-- The method `refreshContent()` of the filter of the table (a table without
filter has no such method: nothing happens). -/
def refreshContent {Row : Type} (t : Table Row) : Outcome Row :=
  match t.filter with
  | none => Except.ok t
  | some newFilters =>
    if newFilters = t.filters then Except.ok t
    else showRows { t with totalRows := -1, fetchedRows := [], filters := newFilters } 1 t.limit

/-- The fields set by the constructor before its call of `showRows`. -/
def newTable (Row : Type) (limit max : Int) (filter : Option String) : Table Row :=
  { limit := limit, max := max, filter := filter, filters := "", totalRows := -1,
    fetchedRows := [], lastoffset := 1, sendReqNo := 0, recvReqNo := 0, json := none,
    requests := [], displayed := [], pagination := [], renderLog := [] }

/-- What can happen to a table: a call of `showRows`, or the arrival of the
response to the request number `k` (in sending order, from 0), the server
answering with the given payload and echoing the `reqNo` of the request. -/
inductive Event (Row : Type) where
  | show (offset limit : Int)
  | response (k : Nat) (offset returnedrows : Nat) (totalrows : Int) (rows : List Row)

/-- The effect of an event: the table when its handler has returned or thrown. -/
def step {Row : Type} (t : Table Row) : Event Row → Table Row
  | Event.show offset limit => tableAfter (showRows t offset limit)
  | Event.response k offset returnedrows totalrows rows =>
    match t.requests[k]? with
    | none => t
    | some rq =>
      onSuccess t
        { reqNo := rq.reqNo, offset := offset, returnedrows := returnedrows,
          totalrows := totalrows, rows := rows }
        rq.displayOffset rq.displayLimit

/-- The effect of a sequence of events. -/
def run {Row : Type} (t : Table Row) (es : List (Event Row)) : Table Row :=
  es.foldl step t

/-- The index `i` holds a row: `fetchedRows[i] == undefined` is false. -/
def cached {Row : Type} (a : JSArray Row) (i : Int) : Bool := (read a i).isSome


/-! ## Page navigation -/

/-- The method `gotoPage(page)` of the paginator. -/
def gotoPage {Row : Type} (t : Table Row) (page : Int) : Outcome Row :=
  showRows t ((page - 1) * t.limit + 1) t.limit

/-- The method `gotoPrevPage()` of the paginator. -/
def gotoPrevPage {Row : Type} (t : Table Row) : Outcome Row :=
  let prevPage := currentPage t.lastoffset t.limit - 1
  if prevPage > 0 then showRows t ((prevPage - 1) * t.limit + 1) t.limit else Except.ok t

/-- The method `gotoNextPage()` of the paginator. -/
def gotoNextPage {Row : Type} (t : Table Row) : Outcome Row :=
  let pages := pageCount t.totalRows t.limit
  let nextPage := currentPage t.lastoffset t.limit + 1
  if nextPage ≤ pages then showRows t ((nextPage - 1) * t.limit + 1) t.limit else Except.ok t

/-- The page numbers of the links marked as selected, in order. -/
def selectedPages : List PageItem → List Int
  | [] => []
  | PageItem.link p true :: rest => p :: selectedPages rest
  | _ :: rest => selectedPages rest

/-! ## Tag cloud

The tag counts and their sum are integers (below 2^53).  The average, the
interval sizes and the thresholds of `buildPopularityMap` are IEEE 754 doubles:
a double is modelled by the rational number it stands for, and each division,
subtraction and addition of the source is the exact operation followed by
`roundDouble`, the rounding to the nearest double.  The popularity map is a
Prototype `Hash` whose keys are the thresholds; `keys()` enumerates the
properties of the underlying object with `for..in`, which visits the names that
are array indices (the whole numbers from 0 to 2^32 - 2) first, in ascending
order, and then the other names in the order of their creation. -/

/-- The integer nearest to `N / D`, the even one of the two when `N / D` lies
halfway between two integers. -/
def roundHalfEven (N D : Nat) : Nat :=
  if 2 * (N % D) < D then N / D
  else if D < 2 * (N % D) then N / D + 1
  else if (N / D) % 2 = 0 then N / D else N / D + 1

/-- The numerator of `n / d / 2 ^ e` as a fraction of natural numbers. -/
def scaledNum (n : Nat) (e : Int) : Nat := if e < 0 then n * 2 ^ (-e).toNat else n

/-- The denominator of `n / d / 2 ^ e` as a fraction of natural numbers. -/
def scaledDen (d : Nat) (e : Int) : Nat := if e < 0 then d else d * 2 ^ e.toNat

/-- The number of binary digits of `n`, for `fuel >= n`. -/
def bitLength : Nat → Nat → Nat
  | 0, _ => 0
  | fuel + 1, n => if n = 0 then 0 else bitLength fuel (n / 2) + 1

/-- The exponent of the unit in the last place of the doubles around `n / d`
(`n, d > 0`): the `e` with `2 ^ 52 <= n / d / 2 ^ e < 2 ^ 53`, and -1074 for the
subnormal numbers. -/
def doubleExponent (n d : Nat) : Int :=
  let e0 : Int := (bitLength n n : Int) - (bitLength d d : Int) - 52
  let e1 := if scaledNum n e0 < 2 ^ 52 * scaledDen d e0 then e0 - 1 else e0
  max e1 (-1074)

/-- The double nearest to `n / d` (`n, d > 0`), ties to even, as a significand
and an exponent: its value is `significand * 2 ^ exponent`. -/
def nearestDouble (n d : Nat) : Nat × Int :=
  (roundHalfEven (scaledNum n (doubleExponent n d)) (scaledDen d (doubleExponent n d)),
   doubleExponent n d)

/-- The result of a floating point operation whose exact result is `q`: the
double nearest to `q`, ties to even.  (Results of magnitude 2^1024 and more,
which are infinite in JavaScript, are not modelled.) -/
def roundDouble (q : ℚ) : ℚ :=
  if q = 0 then 0
  else (if q < 0 then -1 else 1) * ((nearestDouble q.num.natAbs q.den).1 : ℚ)
    * (2 : ℚ) ^ (nearestDouble q.num.natAbs q.den).2

/-- An entry `{tag, count}` of the tag list sent by the server. -/
structure Tag where
  tag : String
  count : Int
deriving DecidableEq, Repr

/-- The field `popularityLevels`. -/
def popularityLevels : List String :=
  ["notPopular", "notVeryPopular", "somewhatPopular", "popular", "veryPopular", "ultraPopular"]

/-- A Prototype `Hash` with numeric keys: the properties of its object, in the
order of their creation. -/
structure Hash where
  entries : List (ℚ × String)
deriving DecidableEq, Repr

/-- The method `set(key, value)`: the property is overwritten when it exists and
created otherwise. -/
def Hash.set (h : Hash) (key : ℚ) (value : String) : Hash :=
  if h.entries.any (fun kv => decide (kv.1 = key)) then
    { entries := h.entries.map (fun kv => if kv.1 = key then (kv.1, value) else kv) }
  else { entries := h.entries ++ [(key, value)] }

/-- The method `get(key)`; `none` stands for `undefined`. -/
def Hash.get (h : Hash) (key : ℚ) : Option String :=
  (h.entries.find? (fun kv => decide (kv.1 = key))).map Prod.snd

/-- Whether the name of the property with this numeric key is an array index. -/
def isArrayIndex (q : ℚ) : Bool :=
  decide (q.den = 1) && decide (0 ≤ q.num) && decide (q.num < 4294967295)

/-- The method `keys()`: the keys in the order `for..in` visits them. -/
def Hash.keys (h : Hash) : List ℚ :=
  ((h.entries.map Prod.fst).filter isArrayIndex).insertionSort (fun a b => a ≤ b)
    ++ (h.entries.map Prod.fst).filter (fun q => !isArrayIndex q)

/-- The variables `totalCount`, `minCount`, `maxCount` of `buildPopularityMap`. -/
structure CountLoop where
  totalCount : Int
  minCount : Int
  maxCount : Int
deriving DecidableEq, Repr

/-- The body of `tags.each(function(tag) {...})` in `buildPopularityMap`. -/
def countStep (s : CountLoop) (tag : Tag) : CountLoop :=
  { totalCount := s.totalCount + tag.count
    minCount := if tag.count < s.minCount ∨ s.minCount = 0 then tag.count else s.minCount
    maxCount := if tag.count > s.maxCount ∨ s.maxCount = -1 then tag.count else s.maxCount }

/-- The counts after the first loop of `buildPopularityMap`. -/
def countTags (tags : List Tag) : CountLoop :=
  tags.foldl countStep { totalCount := 0, minCount := 0, maxCount := -1 }

/-- The variables of the second loop of `buildPopularityMap`; `thresholds` logs
the successive values of `currentPopularityMax`. -/
structure LevelLoop where
  count : Nat
  intervalSize : ℚ
  halfPassed : Bool
  previousPopularityMax : ℚ
  popularityMap : Hash
  thresholds : List ℚ

/-- The body of `this.popularityLevels.each(function(level) {...})`. -/
def levelStep (levelsHalf secondHalfIntervalSize : ℚ) (s : LevelLoop) (level : String) :
    LevelLoop :=
  let count := s.count + 1
  let switch := decide ((count : ℚ) > levelsHalf) && !s.halfPassed
  let intervalSize := if switch then secondHalfIntervalSize else s.intervalSize
  let currentPopularityMax := roundDouble (s.previousPopularityMax + intervalSize)
  { count := count
    intervalSize := intervalSize
    halfPassed := if switch then true else s.halfPassed
    previousPopularityMax := currentPopularityMax
    popularityMap := s.popularityMap.set currentPopularityMax level
    thresholds := s.thresholds ++ [currentPopularityMax] }

/-- The variable `countAverage`: `totalCount / tags.length`. -/
def countAverage (tags : List Tag) : ℚ :=
  roundDouble (((countTags tags).totalCount : ℚ) / (tags.length : ℚ))

/-- The variable `levelsHalf`: `this.popularityLevels.length / 2`. -/
def levelsHalf : ℚ := roundDouble ((popularityLevels.length : ℚ) / 2)

/-- The variable `firstHalfCountDelta`: `countAverage - minCount`. -/
def firstHalfCountDelta (tags : List Tag) : ℚ :=
  roundDouble (countAverage tags - ((countTags tags).minCount : ℚ))

/-- The variable `secondHalfCountDelta`: `maxCount - countAverage`. -/
def secondHalfCountDelta (tags : List Tag) : ℚ :=
  roundDouble (((countTags tags).maxCount : ℚ) - countAverage tags)

/-- The variable `firstHalfIntervalSize`: `firstHalfCountDelta / levelsHalf`. -/
def firstHalfIntervalSize (tags : List Tag) : ℚ :=
  roundDouble (firstHalfCountDelta tags / levelsHalf)

/-- The variable `secondHalfIntervalSize`: `secondHalfCountDelta / levelsHalf`. -/
def secondHalfIntervalSize (tags : List Tag) : ℚ :=
  roundDouble (secondHalfCountDelta tags / levelsHalf)

/-- The state of `buildPopularityMap(tags)` after its second loop. -/
def levelLoop (tags : List Tag) : LevelLoop :=
  popularityLevels.foldl (levelStep levelsHalf (secondHalfIntervalSize tags))
    { count := 0, intervalSize := firstHalfIntervalSize tags, halfPassed := false,
      previousPopularityMax := ((countTags tags).minCount : ℚ),
      popularityMap := { entries := [] }, thresholds := [] }

/-- The method `buildPopularityMap(tags)`. -/
def buildPopularityMap (tags : List Tag) : Hash := (levelLoop tags).popularityMap

/-- The thresholds `buildPopularityMap(tags)` passes to `popularityMap.set`, in
order. -/
def popularityThresholds (tags : List Tag) : List ℚ := (levelLoop tags).thresholds

/-- The inner loop of `displayTagCloud` from index `j` on, `levels` being the
rest of the array from `j`: the class of the first level with
`count >= levels[j]`, the last index being taken in any case. -/
def pickLevel (map : Hash) (count : ℚ) : List ℚ → Option String
  | [] => some ""
  | [l] => map.get l
  | l :: rest => if count ≥ l then map.get l else pickLevel map count rest

/-- The value of `liClass` that `displayTagCloud` computes for a tag with the
given count: `levels` is `this.map.keys().reverse()`. -/
def liClass (map : Hash) (count : Int) : Option String :=
  pickLevel map (count : ℚ) map.keys.reverse

/-- The class the specification assigns: the label of the first threshold, in
ascending order, that is `>= count`, and the label of the last one when there is
none. -/
def specClass (entries : List (ℚ × String)) (count : ℚ) : Option String :=
  match entries.find? (fun kv => decide (kv.1 ≥ count)) with
  | some kv => some kv.2
  | none => entries.getLast?.map Prod.snd

/-- The average `totalCount / tagCount` of the specification, as an exact
rational. -/
def averageCount (tags : List Tag) : ℚ :=
  (((tags.map Tag.count).sum : Int) : ℚ) / (tags.length : ℚ)

/-- The results the arithmetic operations of `buildPopularityMap` have in exact
arithmetic, `mn` and `mx` being the smallest and the largest count and `avg` the
exact average: the average, the two deltas, the two interval sizes and the six
thresholds. -/
def exactResults (mn mx : Int) (avg : ℚ) : List ℚ :=
  [avg, avg - (mn : ℚ), (mx : ℚ) - avg, (avg - (mn : ℚ)) / 3, ((mx : ℚ) - avg) / 3,
   (mn : ℚ) + 1 * (avg - (mn : ℚ)) / 3, (mn : ℚ) + 2 * (avg - (mn : ℚ)) / 3,
   (mn : ℚ) + 3 * (avg - (mn : ℚ)) / 3,
   avg + 1 * ((mx : ℚ) - avg) / 3, avg + 2 * ((mx : ℚ) - avg) / 3,
   avg + 3 * ((mx : ℚ) - avg) / 3]

/-! ## Example states -/

/-- A table on which two requests are in flight. -/
def staleExample : Table Nat :=
  getRows (getRows (newTable Nat 10 10 none) 1 10 1 10) 11 10 11 10

/-- The response to the first of the two requests of `staleExample`. -/
def staleResponse : Response Nat :=
  { reqNo := 1, offset := 1, returnedrows := 2, totalrows := 2, rows := [7, 8] }

/-- A table whose cache holds the rows 1 and 2. -/
def mergeExample : Table Char :=
  { newTable Char 10 10 none with
    totalRows := 2, fetchedRows := [Slot.hole, Slot.row 'A', Slot.row 'B'] }

/-- The cache {1:A, 2:B, 3:C, 4:D}. -/
def denseExample : Table Char :=
  { newTable Char 10 10 none with
    totalRows := 4,
    fetchedRows := [Slot.hole, Slot.row 'A', Slot.row 'B', Slot.row 'C', Slot.row 'D'] }

/-- The cache {1:A, 3:C}: the index 2 was never fetched. -/
def sparseExample : Table Char :=
  { newTable Char 10 10 none with
    totalRows := 3,
    fetchedRows := [Slot.hole, Slot.row 'A', Slot.hole, Slot.row 'C'] }

/-- A table showing its first page, in whose filter controls "&name=a" was
just typed. -/
def filterExample : Table Char :=
  { newTable Char 2 10 (some "&name=a") with
    totalRows := 2, fetchedRows := [Slot.hole, Slot.row 'A', Slot.row 'B'] }

/-- The rows `lo, lo+1, .., lo+n-1` of a server whose row `i` is the number `i`. -/
def serverRows (lo n : Nat) : List Nat := (List.range n).map (fun (k : Nat) => lo + k)

/-- A new table of limit 10, with a filter in whose controls nothing is typed. -/
def emptyFilterTable : Table Nat := newTable Nat 10 10 (some "")

/-- A new table of limit 10 on a server of 95 rows: `showRows(91, 10)` is called,
the response to its request, the five rows 91..95 that exist, is applied, and
`showRows(91, 10)` is called again. -/
def lastPageTwice : List (Event Nat) :=
  [Event.show 91 10, Event.response 0 91 5 95 (serverRows 91 5), Event.show 91 10]

/-- A new table of limit 10 on a server of 30 rows.  Page 1 is fetched and
shown; `showRows(11, 10)` sends request 2; before its response arrives
`showRows(1, 10)` shows page 1 again from the cache; then the response to
request 2 arrives. -/
def backToCachedPage : List (Event Nat) :=
  [Event.show 1 10, Event.response 0 1 10 30 (serverRows 1 10),
   Event.show 11 10, Event.show 1 10,
   Event.response 1 11 10 30 (serverRows 11 10)]

/-- A tag list with the given counts. -/
def tagsOf (counts : List Int) : List Tag := counts.map (fun c => { tag := "t", count := c })

/-- A table with a filter in whose controls nothing is typed, the cache
{1:A, 3:C} and three rows on the server. -/
def scanExample : Table Char :=
  { newTable Char 10 10 (some "") with
    totalRows := 3,
    fetchedRows := [Slot.hole, Slot.row 'A', Slot.hole, Slot.row 'C'] }

/-- The cache {1, 2, 3, 7, 8} of a table of 20 rows, with a filter in whose
controls nothing is typed. -/
def gapExample : Table Char :=
  { newTable Char 10 10 (some "") with
    totalRows := 20,
    fetchedRows := [Slot.hole, Slot.row 'A', Slot.row 'B', Slot.row 'C', Slot.hole, Slot.hole,
      Slot.hole, Slot.row 'G', Slot.row 'H'] }

/-- A table of limit 1 showing the first of its five cached rows, with a filter
in whose controls nothing is typed. -/
def limitOneExample : Table Char :=
  { newTable Char 1 10 (some "") with
    totalRows := 5,
    fetchedRows := [Slot.hole, Slot.row 'A', Slot.row 'B', Slot.row 'C', Slot.row 'D',
      Slot.row 'E'] }

/-- The popularity map of the tag counts 1, 4, 10, 13 (average 7): its
thresholds 3, 5, 7, 9, 11, 13 are whole numbers. -/
def integerMap : Hash :=
  { entries := [(3, "notPopular"), (5, "notVeryPopular"), (7, "somewhatPopular"),
      (9, "popular"), (11, "veryPopular"), (13, "ultraPopular")] }

/-- The tag counts 1, 1, 1, 10, 10, 10. -/
def sixTags : List Tag := tagsOf [1, 1, 1, 10, 10, 10]

/-- The tag counts 1, 2. -/
def twoTags : List Tag := tagsOf [1, 2]

/-! ## Reading and writing array slots -/

theorem getElem?_setIndex {Row : Type} (a : JSArray Row) (i : Nat) (v : Option Row) (j : Nat) :
    (setIndex a i v)[j]? = if j = i then some (toSlot v) else
      if j < a.length then a[j]? else if j < i then some Slot.hole else none := by
  unfold setIndex
  by_cases hi : i < a.length
  · simp only [hi, if_true]
    by_cases hji : j = i
    · subst hji
      simp [hi]
    · have hne : i ≠ j := fun h => hji h.symm
      simp only [hji, if_false]
      rw [List.getElem?_set_ne hne]
      by_cases hj : j < a.length
      · simp [hj]
      · have : a[j]? = none := List.getElem?_eq_none (by omega)
        have hji2 : ¬ j < i := by omega
        simp [hj, hji2, this]
  · simp only [hi, if_false]
    by_cases hj : j < a.length
    · have hji : j ≠ i := by omega
      simp only [hji, if_false, hj, if_true]
      rw [List.append_assoc, List.getElem?_append_left hj]
    · have hlen : a.length ≤ j := by omega
      rw [List.append_assoc, List.getElem?_append_right hlen]
      by_cases hji : j = i
      · subst hji
        simp [List.getElem?_append_right]
      · simp only [hji, if_false, hj]
        by_cases hlt : j < i
        · have h1 : j - a.length < (List.replicate (i - a.length) (Slot.hole : Slot Row)).length := by
            simp; omega
          rw [List.getElem?_append_left h1]
          rw [List.length_replicate] at h1
          simp [hlt, List.getElem?_replicate, h1]
        · have h1 : (List.replicate (i - a.length) (Slot.hole : Slot Row)).length ≤ j - a.length := by
            simp; omega
          rw [List.getElem?_append_right h1]
          simp only [hlt, if_false]
          apply List.getElem?_eq_none
          rw [List.length_replicate] at h1
          simp only [List.length_singleton, List.length_replicate]
          omega

theorem readAt_setIndex {Row : Type} (a : JSArray Row) (i : Nat) (v : Option Row) (j : Nat) :
    readAt (setIndex a i v) j = if j = i then v else readAt a j := by
  unfold readAt
  rw [getElem?_setIndex]
  by_cases hji : j = i
  · simp only [hji, if_true]
    cases v <;> rfl
  · simp only [hji, if_false]
    by_cases hj : j < a.length
    · simp [hj]
    · have : a[j]? = none := List.getElem?_eq_none (by omega)
      rw [this]
      by_cases hlt : j < i <;> simp [hj, hlt, Slot.value]

theorem isKey_lt_length {Row : Type} (a : JSArray Row) (i : Nat) (h : isKey a i = true) :
    i < a.length := by
  by_contra hn
  have : a[i]? = none := List.getElem?_eq_none (by omega)
  simp [isKey, this] at h

theorem mem_forInKeys {Row : Type} (a : JSArray Row) (i : Nat) :
    i ∈ forInKeys a ↔ isKey a i = true := by
  unfold forInKeys
  rw [List.mem_filter, List.mem_range]
  constructor
  · exact fun h => h.2
  · exact fun h => ⟨isKey_lt_length a i h, h⟩

theorem forInKeys_sorted {Row : Type} (a : JSArray Row) :
    (forInKeys a).Pairwise (fun x y => x < y) :=
  List.Pairwise.sublist (List.filter_sublist _) (List.pairwise_lt_range a.length)

theorem readAt_of_isKey_false {Row : Type} (a : JSArray Row) (i : Nat)
    (h : isKey a i = false) : readAt a i = none := by
  unfold isKey at h
  unfold readAt
  cases hs : a[i]? with
  | none => rfl
  | some s =>
    rw [hs] at h
    cases s with
    | hole => rfl
    | undef => simp at h
    | row r => simp at h

/-! ## The loops of `updateFetchedRows` and `deleteAndShiftRows` -/

theorem readAt_mergeLoop {Row : Type} (rows : List Row) (off n : Nat) (a : JSArray Row) (j : Nat) :
    readAt ((List.range n).foldl
      (fun (acc : JSArray Row) (k : Nat) => setIndex acc (off + k) rows[k]?) a) j
      = if off ≤ j ∧ j < off + n then rows[j - off]? else readAt a j := by
  induction n with
  | zero =>
    have : ¬ (off ≤ j ∧ j < off) := by omega
    simp [this]
  | succ n ih =>
    rw [List.range_succ, List.foldl_append, List.foldl_cons, List.foldl_nil, readAt_setIndex, ih]
    by_cases hj : j = off + n
    · subst hj
      simp
    · simp only [hj, if_false]
      by_cases h1 : off ≤ j ∧ j < off + n
      · have h2 : off ≤ j ∧ j < off + (n + 1) := by omega
        simp [h1, h2]
      · have h2 : ¬ (off ≤ j ∧ j < off + (n + 1)) := by omega
        simp [h1, h2]

theorem readAt_mergeRows {Row : Type} (a : JSArray Row) (json : Response Row) (j : Nat) :
    readAt (mergeRows a json) j
      = if json.offset ≤ j ∧ j < json.offset + json.returnedrows
        then json.rows[j - json.offset]? else readAt a j :=
  readAt_mergeLoop json.rows json.offset json.returnedrows a j

theorem readAt_shiftLoop {Row : Type} (k : Int) (l : List Nat)
    (hl : l.Pairwise (fun x y => x < y)) (a : JSArray Row) (j : Nat) :
    readAt (l.foldl (fun (acc : JSArray Row) (i : Nat) =>
        if k ≤ (i : Int) then setIndex acc i (readAt acc (i + 1)) else acc) a) j
      = if j ∈ l ∧ k ≤ (j : Int) then readAt a (j + 1) else readAt a j := by
  induction l generalizing a with
  | nil => simp
  | cons i rest ih =>
    rw [List.pairwise_cons] at hl
    rw [List.foldl_cons, ih hl.2]
    by_cases hjr : j ∈ rest
    · have hij : i < j := hl.1 j hjr
      have h1 : j + 1 ≠ i := by omega
      have h2 : j ≠ i := by omega
      by_cases hk : k ≤ (j : Int)
      · by_cases hki : k ≤ (i : Int)
        · simp [hjr, hk, hki, readAt_setIndex, h1]
        · simp [hjr, hk, hki]
      · by_cases hki : k ≤ (i : Int)
        · simp [hjr, hk, hki, readAt_setIndex, h2]
        · simp [hjr, hk, hki]
    · by_cases hji : j = i
      · subst hji
        by_cases hk : k ≤ (j : Int)
        · simp [hjr, hk, readAt_setIndex]
        · simp [hjr, hk]
      · by_cases hki : k ≤ (i : Int)
        · simp [hjr, hji, hki, readAt_setIndex]
        · simp [hjr, hji, hki]

theorem readAt_shiftRows {Row : Type} (a : JSArray Row) (k : Int) (j : Nat) :
    readAt (shiftRows a k) j
      = if isKey a j = true ∧ k ≤ (j : Int) then readAt a (j + 1) else readAt a j := by
  unfold shiftRows
  rw [readAt_shiftLoop k (forInKeys a) (forInKeys_sorted a) a j]
  by_cases h : isKey a j = true
  · have h2 : j ∈ forInKeys a := (mem_forInKeys a j).2 h
    simp [h, h2]
  · have h2 : j ∉ forInKeys a := fun hm => h ((mem_forInKeys a j).1 hm)
    simp [h, h2]

theorem read_natCast {Row : Type} (a : JSArray Row) (j : Nat) :
    read a (j : Int) = readAt a j := by
  unfold read
  have : ¬ ((j : Int) < 0) := by omega
  simp [this]

theorem read_neg {Row : Type} (a : JSArray Row) (j : Int) (h : j < 0) : read a j = none := by
  unfold read
  simp [h]

/-! ## Staleness check of the success handler -/

/-- C1: the success handler applies a response exactly when its `reqNo` is not
below `sendReqNo`.  When `reqNo >= sendReqNo` it sets `recvReqNo`, merges the
rows, sets `totalRows` and calls `displayRows` with the display range of its
request; when `reqNo < sendReqNo` the whole state is left as it was; a render is
logged if and only if `reqNo >= sendReqNo`.  In particular, after two requests
have been sent and the response to the second one was applied, the response to
the first one changes nothing. -/
theorem onSuccess_applies_iff_not_stale {Row : Type} (t : Table Row) (res : Response Row)
    (displayOffset displayLimit : Int) :
    (t.sendReqNo ≤ res.reqNo →
      (onSuccess t res displayOffset displayLimit).recvReqNo = res.reqNo ∧
      (onSuccess t res displayOffset displayLimit).fetchedRows = mergeRows t.fetchedRows res ∧
      (onSuccess t res displayOffset displayLimit).totalRows = res.totalrows ∧
      (onSuccess t res displayOffset displayLimit).renderLog
        = t.renderLog ++ [(displayOffset, displayLimit)]) ∧
    (res.reqNo < t.sendReqNo → onSuccess t res displayOffset displayLimit = t) ∧
    ((onSuccess t res displayOffset displayLimit).renderLog
        = t.renderLog ++ [(displayOffset, displayLimit)] ↔ t.sendReqNo ≤ res.reqNo) ∧
    (∀ (o1 l1 d1 e1 o2 l2 d2 e2 : Int) (res1 res2 : Response Row),
      res1.reqNo = t.sendReqNo + 1 → res2.reqNo = t.sendReqNo + 2 →
      (onSuccess (getRows (getRows t o1 l1 d1 e1) o2 l2 d2 e2) res2 d2 e2).recvReqNo
        = t.sendReqNo + 2 ∧
      onSuccess (onSuccess (getRows (getRows t o1 l1 d1 e1) o2 l2 d2 e2) res2 d2 e2) res1 d1 e1
        = onSuccess (getRows (getRows t o1 l1 d1 e1) o2 l2 d2 e2) res2 d2 e2) := by
  have hacc : t.sendReqNo ≤ res.reqNo →
      (onSuccess t res displayOffset displayLimit).recvReqNo = res.reqNo ∧
      (onSuccess t res displayOffset displayLimit).fetchedRows = mergeRows t.fetchedRows res ∧
      (onSuccess t res displayOffset displayLimit).totalRows = res.totalrows ∧
      (onSuccess t res displayOffset displayLimit).renderLog
        = t.renderLog ++ [(displayOffset, displayLimit)] := by
    intro h
    have hn : ¬ res.reqNo < t.sendReqNo := by omega
    simp [onSuccess, hn, displayRows, refreshPagination, updateFetchedRows]
  have hrej : res.reqNo < t.sendReqNo → onSuccess t res displayOffset displayLimit = t := by
    intro h
    simp [onSuccess, h]
  refine ⟨hacc, hrej, ⟨?_, fun h => (hacc h).2.2.2⟩, ?_⟩
  · intro h
    by_contra hn
    have hlt : res.reqNo < t.sendReqNo := by omega
    rw [hrej hlt] at h
    have := congrArg List.length h
    simp at this
  · intro o1 l1 d1 e1 o2 l2 d2 e2 res1 res2 h1 h2
    have hs : (getRows (getRows t o1 l1 d1 e1) o2 l2 d2 e2).sendReqNo = t.sendReqNo + 2 := by
      simp [getRows]; omega
    have hn : ¬ res2.reqNo < (getRows (getRows t o1 l1 d1 e1) o2 l2 d2 e2).sendReqNo := by
      rw [hs]; omega
    have hs3 : (onSuccess (getRows (getRows t o1 l1 d1 e1) o2 l2 d2 e2) res2 d2 e2).sendReqNo
        = t.sendReqNo + 2 := by
      rw [← hs, onSuccess, if_neg hn]
      simp [displayRows, refreshPagination, updateFetchedRows]
    constructor
    · rw [onSuccess, if_neg hn]
      simp [displayRows, refreshPagination, updateFetchedRows, h2]
    · have hlt : res1.reqNo
          < (onSuccess (getRows (getRows t o1 l1 d1 e1) o2 l2 d2 e2) res2 d2 e2).sendReqNo := by
        rw [hs3]; omega
      rw [onSuccess, if_pos hlt]

/-- With two requests in flight, the response to the first one is dropped. -/
theorem onSuccess_applies_iff_not_stale_witness :
    onSuccess staleExample staleResponse 1 10 = staleExample :=
  (onSuccess_applies_iff_not_stale staleExample staleResponse 1 10).2.1 (by decide)

/-! ## Merging a response -/

/-- C5: for a response with `rows.length == returnedrows`, after
`updateFetchedRows` the cache holds `rows[i]` at index `offset + i` for every
`i < returnedrows`, every index outside `[offset, offset + returnedrows)` holds
what it held before, and `totalRows` is the `totalrows` of the response. -/
theorem updateFetchedRows_merges {Row : Type} (t : Table Row) (json : Response Row)
    (hlen : json.rows.length = json.returnedrows) :
    (∀ i : Nat, i < json.returnedrows →
      ∃ r, json.rows[i]? = some r ∧
        read (updateFetchedRows t json).fetchedRows ((json.offset : Int) + (i : Int)) = some r) ∧
    (∀ j : Int, (j < (json.offset : Int) ∨ (json.offset : Int) + (json.returnedrows : Int) ≤ j) →
      read (updateFetchedRows t json).fetchedRows j = read t.fetchedRows j) ∧
    (updateFetchedRows t json).totalRows = json.totalrows := by
  refine ⟨?_, ?_, rfl⟩
  · intro i hi
    have hi2 : i < json.rows.length := by omega
    refine ⟨json.rows[i], List.getElem?_eq_getElem hi2, ?_⟩
    have hcast : (json.offset : Int) + (i : Int) = ((json.offset + i : Nat) : Int) := by
      push_cast; rfl
    rw [hcast, read_natCast]
    show readAt (mergeRows t.fetchedRows json) (json.offset + i) = _
    rw [readAt_mergeRows]
    have hin : json.offset ≤ json.offset + i ∧ json.offset + i < json.offset + json.returnedrows := by
      omega
    rw [if_pos hin]
    simp [List.getElem?_eq_getElem hi2]
  · intro j hj
    by_cases hneg : j < 0
    · rw [read_neg _ j hneg, read_neg _ j hneg]
    · obtain ⟨n, rfl⟩ : ∃ n : Nat, j = (n : Int) := ⟨j.toNat, by omega⟩
      rw [read_natCast, read_natCast]
      show readAt (mergeRows t.fetchedRows json) n = _
      rw [readAt_mergeRows]
      have hout : ¬ (json.offset ≤ n ∧ n < json.offset + json.returnedrows) := by omega
      rw [if_neg hout]

/-- Merging two rows at offset 2 leaves the row cached at index 1 in place. -/
theorem updateFetchedRows_merges_witness :
    read (updateFetchedRows mergeExample
        { reqNo := 1, offset := 2, returnedrows := 2, totalrows := 7, rows := ['X', 'Y'] }).fetchedRows
      1 = some 'A' :=
  ((updateFetchedRows_merges mergeExample
      { reqNo := 1, offset := 2, returnedrows := 2, totalrows := 7, rows := ['X', 'Y'] }
      rfl).2.1 1 (Or.inl (by decide))).trans (by decide)

/-! ## Deleting a row -/

theorem read_shiftRows {Row : Type} (a : JSArray Row) (k j : Int) (hj : 0 ≤ j) :
    read (shiftRows a k) j
      = if isKey a j.toNat = true ∧ k ≤ j then read a (j + 1) else read a j := by
  obtain ⟨n, rfl⟩ : ∃ n : Nat, j = (n : Int) := ⟨j.toNat, by omega⟩
  have h1 : ((n : Int) + 1) = ((n + 1 : Nat) : Int) := by push_cast; rfl
  rw [h1, read_natCast, read_natCast, read_natCast, readAt_shiftRows]
  simp

theorem isKey_of_cached {Row : Type} (a : JSArray Row) (i : Int) (h : cached a i = true) :
    0 ≤ i ∧ isKey a i.toNat = true := by
  unfold cached at h
  by_cases hneg : i < 0
  · rw [read_neg a i hneg] at h
    simp at h
  · refine ⟨by omega, ?_⟩
    by_contra hk
    have hk2 : isKey a i.toNat = false := by simpa using hk
    have : read a i = none := by
      unfold read
      rw [if_neg hneg]
      exact readAt_of_isKey_false a _ hk2
    rw [this] at h
    simp at h

/-- C7: on a cache whose cached indices are exactly `lo .. hi`, with
`lo <= indx <= hi`, `deleteAndShiftRows(indx)` leaves a cache whose cached
indices are exactly `lo .. hi - 1`; the rows below `indx` are unchanged and each
`j` in `indx .. hi - 1` holds the row formerly at `j + 1`. -/
theorem deleteAndShiftRows_dense {Row : Type} (t : Table Row) (lo hi indx : Int)
    (hdense : ∀ i : Int, cached t.fetchedRows i = true ↔ lo ≤ i ∧ i ≤ hi)
    (hlo : lo ≤ indx) (hhi : indx ≤ hi) :
    (∀ i : Int, cached (deleteAndShiftRows t indx).fetchedRows i = true ↔ lo ≤ i ∧ i ≤ hi - 1) ∧
    (∀ i : Int, i < indx →
      read (deleteAndShiftRows t indx).fetchedRows i = read t.fetchedRows i) ∧
    (∀ j : Int, indx ≤ j → j ≤ hi - 1 →
      read (deleteAndShiftRows t indx).fetchedRows j = read t.fetchedRows (j + 1)) := by
  have hlo0 : 0 ≤ lo := (isKey_of_cached _ lo ((hdense lo).2 ⟨le_refl _, by omega⟩)).1
  have hbelow : ∀ i : Int, i < indx →
      read (shiftRows t.fetchedRows indx) i = read t.fetchedRows i := by
    intro i hlt
    by_cases hneg : i < 0
    · rw [read_neg _ i hneg, read_neg _ i hneg]
    · rw [read_shiftRows _ _ _ (by omega)]
      have : ¬ (isKey t.fetchedRows i.toNat = true ∧ indx ≤ i) := by omega
      rw [if_neg this]
  have habove : ∀ j : Int, indx ≤ j → j ≤ hi - 1 →
      read (shiftRows t.fetchedRows indx) j = read t.fetchedRows (j + 1) := by
    intro j hj1 hj2
    have hc : cached t.fetchedRows j = true := (hdense j).2 ⟨by omega, by omega⟩
    have hk := isKey_of_cached _ j hc
    rw [read_shiftRows _ _ _ hk.1, if_pos ⟨hk.2, hj1⟩]
  refine ⟨?_, hbelow, habove⟩
  intro i
  show cached (shiftRows t.fetchedRows indx) i = true ↔ _
  by_cases hlt : i < indx
  · unfold cached
    rw [hbelow i hlt]
    have := hdense i
    unfold cached at this
    rw [this]
    constructor
    · intro h; exact ⟨h.1, by omega⟩
    · intro h; exact ⟨h.1, by omega⟩
  · by_cases hi2 : i ≤ hi - 1
    · unfold cached
      rw [habove i (by omega) hi2]
      have := hdense (i + 1)
      unfold cached at this
      rw [this]
      constructor
      · intro _; exact ⟨by omega, hi2⟩
      · intro _; exact ⟨by omega, by omega⟩
    · constructor
      · intro h
        exfalso
        have hk := isKey_of_cached _ i h
        unfold cached at h
        rw [read_shiftRows _ _ _ hk.1] at h
        by_cases hkey : isKey t.fetchedRows i.toNat = true ∧ indx ≤ i
        · rw [if_pos hkey] at h
          have := (hdense (i + 1)).1 h
          omega
        · rw [if_neg hkey] at h
          have := (hdense i).1 h
          have hkey2 := isKey_of_cached _ i h
          exact hkey ⟨hkey2.2, by omega⟩
      · intro h
        omega

/-- The cached indices of `denseExample` are exactly 1..4. -/
theorem denseExample_cached (i : Int) :
    cached denseExample.fetchedRows i = true ↔ 1 ≤ i ∧ i ≤ 4 := by
  by_cases h0 : i < 0
  · simp only [cached, read_neg _ i h0]
    constructor
    · intro h; simp at h
    · intro h; omega
  · by_cases h5 : 5 ≤ i
    · have : read denseExample.fetchedRows i = none := by
        unfold read readAt
        rw [if_neg h0]
        have : denseExample.fetchedRows[i.toNat]? = none :=
          List.getElem?_eq_none (by simp [denseExample, newTable]; omega)
        rw [this]
      simp only [cached, this]
      constructor
      · intro h; simp at h
      · intro h; omega
    · have h1 : 0 ≤ i := by omega
      have h2 : i ≤ 4 := by omega
      interval_cases i <;> decide

/-- The cache {1:A, 2:B, 3:C, 4:D} becomes {1:A, 2:C, 3:D} when row 2 is deleted. -/
theorem deleteAndShiftRows_dense_witness :
    (∀ i : Int, cached (deleteAndShiftRows denseExample 2).fetchedRows i = true ↔ 1 ≤ i ∧ i ≤ 3) ∧
    read (deleteAndShiftRows denseExample 2).fetchedRows 1 = some 'A' ∧
    read (deleteAndShiftRows denseExample 2).fetchedRows 2 = some 'C' ∧
    read (deleteAndShiftRows denseExample 2).fetchedRows 3 = some 'D' :=
  ⟨(deleteAndShiftRows_dense denseExample 1 4 2 denseExample_cached (by decide) (by decide)).1,
   by decide, by decide, by decide⟩

/-- C6, the code at a sparse cache: `deleteAndShiftRows(1)` on {1:A, 3:C} visits
the properties 1 and 3 only; the row C, cached at index 3, is not moved to
index 2 and is no longer in the cache. -/
theorem deleteAndShiftRows_sparse_loses_row :
    read sparseExample.fetchedRows 3 = some 'C' ∧
    (deleteAndShiftRows sparseExample 1).fetchedRows
      = [Slot.hole, Slot.undef, Slot.hole, Slot.undef] ∧
    read (deleteAndShiftRows sparseExample 1).fetchedRows 2 = none ∧
    (∀ i : Int, read (deleteAndShiftRows sparseExample 1).fetchedRows i ≠ some 'C') := by
  refine ⟨by decide, by decide, by decide, ?_⟩
  intro i
  have hres : (deleteAndShiftRows sparseExample 1).fetchedRows
      = [Slot.hole, Slot.undef, Slot.hole, Slot.undef] := by decide
  rw [hres]
  unfold read readAt
  by_cases h0 : i < 0
  · simp [h0]
  · rw [if_neg h0]
    generalize i.toNat = n
    match n with
    | 0 => simp [Slot.value]
    | 1 => simp [Slot.value]
    | 2 => simp [Slot.value]
    | 3 => simp [Slot.value]
    | n + 4 => simp

/-! ## The range requested by `showRows` -/

theorem scanLoop_spec {Row : Type} (a : JSArray Row) (offset : Int) (h0 : 0 ≤ offset) (n : Nat) :
    (((List.range n).map (fun k : Nat => offset + (k : Int))).foldl (scanStep a) (-1, -1) = (-1, -1) ∧
      ∀ i : Int, offset ≤ i → i < offset + (n : Int) → cached a i = true) ∨
    (∃ lo hi : Int,
      ((List.range n).map (fun k : Nat => offset + (k : Int))).foldl (scanStep a) (-1, -1) = (lo, hi) ∧
      offset ≤ lo ∧ lo ≤ hi ∧ hi < offset + (n : Int) ∧
      cached a lo = false ∧ cached a hi = false ∧
      ∀ i : Int, offset ≤ i → i < offset + (n : Int) → cached a i = false → lo ≤ i ∧ i ≤ hi) := by
  induction n with
  | zero =>
    left
    refine ⟨rfl, ?_⟩
    intro i h1 h2
    simp at h2
    omega
  | succ n ih =>
    rw [List.range_succ, List.map_append, List.foldl_append]
    simp only [List.map_cons, List.map_nil, List.foldl_cons, List.foldl_nil]
    by_cases hc : cached a (offset + (n : Int)) = true
    · have hstep : ∀ mm : Int × Int, scanStep a mm (offset + (n : Int)) = mm := by
        intro mm
        unfold cached at hc
        unfold scanStep
        cases hr : read a (offset + (n : Int)) with
        | none => rw [hr] at hc; simp at hc
        | some r => simp
      rw [hstep]
      rcases ih with ⟨he, hall⟩ | ⟨lo, hi, he, h1, h2, h3, h4, h5, h6⟩
      · left
        refine ⟨he, ?_⟩
        intro i hi1 hi2
        by_cases hlast : i = offset + (n : Int)
        · rw [hlast]; exact hc
        · exact hall i hi1 (by push_cast at hi2; omega)
      · right
        refine ⟨lo, hi, he, h1, h2, by push_cast; omega, h4, h5, ?_⟩
        intro i hi1 hi2 hi3
        by_cases hlast : i = offset + (n : Int)
        · rw [hlast, hc] at hi3
          simp at hi3
        · exact h6 i hi1 (by push_cast at hi2; omega) hi3
    · have hc2 : cached a (offset + (n : Int)) = false := by simpa using hc
      have hstep : ∀ mm : Int × Int, scanStep a mm (offset + (n : Int))
          = (if mm.1 = -1 then offset + (n : Int) else mm.1, offset + (n : Int)) := by
        intro mm
        unfold cached at hc2
        unfold scanStep
        cases hr : read a (offset + (n : Int)) with
        | none => simp
        | some r => rw [hr] at hc2; simp at hc2
      rw [hstep]
      right
      rcases ih with ⟨he, hall⟩ | ⟨lo, hi, he, h1, h2, h3, h4, h5, h6⟩
      · refine ⟨offset + (n : Int), offset + (n : Int), by rw [he]; simp, by omega, le_refl _,
          by push_cast; omega, hc2, hc2, ?_⟩
        intro i hi1 hi2 hi3
        by_cases hlast : i = offset + (n : Int)
        · omega
        · have := hall i hi1 (by push_cast at hi2; omega)
          rw [this] at hi3
          simp at hi3
      · have hne : lo ≠ -1 := by omega
        refine ⟨lo, offset + (n : Int), by rw [he]; simp [hne], h1, by omega,
          by push_cast; omega, h4, hc2, ?_⟩
        intro i hi1 hi2 hi3
        by_cases hlast : i = offset + (n : Int)
        · omega
        · have := h6 i hi1 (by push_cast at hi2; omega) hi3
          omega

theorem scanMissing_spec {Row : Type} (a : JSArray Row) (offset limit : Int)
    (h0 : 0 ≤ offset) (hl : 0 ≤ limit) :
    (scanMissing a offset limit = (-1, -1) ∧
      ∀ i : Int, offset ≤ i → i < offset + limit → cached a i = true) ∨
    (∃ lo hi : Int, scanMissing a offset limit = (lo, hi) ∧
      offset ≤ lo ∧ lo ≤ hi ∧ hi < offset + limit ∧
      cached a lo = false ∧ cached a hi = false ∧
      ∀ i : Int, offset ≤ i → i < offset + limit → cached a i = false → lo ≤ i ∧ i ≤ hi) := by
  have hn : (offset + limit - 1 + 1 - offset).toNat = limit.toNat := by
    congr 1; omega
  have hcast : ((limit.toNat : Nat) : Int) = limit := Int.toNat_of_nonneg hl
  have := scanLoop_spec a offset h0 limit.toNat
  rw [hcast] at this
  unfold scanMissing countedLoop
  rw [hn]
  exact this

theorem showRows_of_filter {Row : Type} (t : Table Row) (s : String) (offset limit : Int)
    (hf : t.filter = some s) :
    showRows t offset limit = Except.ok
      (if t.totalRows = -1 then getRows { t with lastoffset := offset } offset limit offset limit
       else
        refreshPagination
          (if (scanMissing t.fetchedRows offset limit).1 = -1
           then displayRows { t with lastoffset := offset } offset limit
           else getRows { t with lastoffset := offset } (scanMissing t.fetchedRows offset limit).1
             ((scanMissing t.fetchedRows offset limit).2
               - (scanMissing t.fetchedRows offset limit).1 + 1) offset limit)) := by
  simp [showRows, updateLocationHash, hf]

theorem showRows_without_filter {Row : Type} (t : Table Row) (offset limit : Int)
    (hf : t.filter = none) :
    showRows t offset limit = Except.error { t with lastoffset := offset } := by
  simp [showRows, updateLocationHash, hf]

/-- C2: on a table that has a filter (without one `showRows` throws in
`updateLocationHash`), for a display offset `>= 1` and a display limit `>= 0`,
`showRows` returns and what it asks the server for is: the display range itself
when `totalRows` is -1; otherwise, when some index of the window
`[offset, offset + limit)` is uncached, the range from the smallest to the
largest uncached index of the window (both uncached, every uncached index of the
window between them), of length `max - min + 1`; and when every index of the
window is cached, nothing: no request is sent and `displayRows(offset, limit)`
shows the window from the cache. -/
theorem showRows_requests_missing_range {Row : Type} (t : Table Row) (s : String)
    (offset limit : Int) (hf : t.filter = some s) (hoff : 1 ≤ offset) (hlim : 0 ≤ limit) :
    ∃ t2 : Table Row, showRows t offset limit = Except.ok t2 ∧
    (t.totalRows = -1 →
      t2.requests = t.requests ++
        [{ reqOffset := offset, reqLimit := limit, reqNo := t.sendReqNo + 1,
           filters := s, displayOffset := offset, displayLimit := limit }] ∧
      t2.renderLog = t.renderLog) ∧
    (t.totalRows ≠ -1 →
      (∃ i : Int, offset ≤ i ∧ i < offset + limit ∧ cached t.fetchedRows i = false) →
      ∃ lo hi : Int, offset ≤ lo ∧ lo ≤ hi ∧ hi < offset + limit ∧
        cached t.fetchedRows lo = false ∧ cached t.fetchedRows hi = false ∧
        (∀ i : Int, offset ≤ i → i < offset + limit → cached t.fetchedRows i = false →
          lo ≤ i ∧ i ≤ hi) ∧
        t2.requests = t.requests ++
          [{ reqOffset := lo, reqLimit := hi - lo + 1, reqNo := t.sendReqNo + 1,
             filters := s, displayOffset := offset, displayLimit := limit }] ∧
        t2.renderLog = t.renderLog) ∧
    (t.totalRows ≠ -1 →
      (∀ i : Int, offset ≤ i → i < offset + limit → cached t.fetchedRows i = true) →
      t2.requests = t.requests ∧
      t2.renderLog = t.renderLog ++ [(offset, limit)] ∧
      t2.displayed
        = visibleRows t.fetchedRows (if t.totalRows > 0 then offset else 0)
            (if offset + limit - 1 > t.totalRows then t.totalRows else offset + limit - 1)) := by
  refine ⟨_, showRows_of_filter t s offset limit hf, ?_, ?_, ?_⟩
  · intro h
    simp [h, getRows, urlFilters, hf]
  · intro h hex
    rcases scanMissing_spec t.fetchedRows offset limit (by omega) hlim with
      ⟨_, hall⟩ | ⟨lo, hi, he, h1, h2, h3, h4, h5, h6⟩
    · obtain ⟨i, hi1, hi2, hi3⟩ := hex
      rw [hall i hi1 hi2] at hi3
      simp at hi3
    · refine ⟨lo, hi, h1, h2, h3, h4, h5, h6, ?_, ?_⟩
      · have hne : lo ≠ -1 := by omega
        simp [h, he, hne, getRows, refreshPagination, urlFilters, hf]
      · have hne : lo ≠ -1 := by omega
        simp [h, he, hne, getRows, refreshPagination]
  · intro h hall
    rcases scanMissing_spec t.fetchedRows offset limit (by omega) hlim with
      ⟨he, _⟩ | ⟨lo, hi, _, h1, _, h3, h4, _, _⟩
    · simp [h, he, displayRows, refreshPagination]
    · rw [hall lo h1 (by omega)] at h4
      simp at h4

/-- On the cache {1:A, 3:C} of a table of three rows, `showRows(1, 3)` requests
the missing row 2 alone, and `showRows(3, 1)` sends nothing and displays row 3
from the cache. -/
theorem showRows_requests_missing_range_witness :
    (∃ t2 : Table Char, showRows scanExample 1 3 = Except.ok t2 ∧
      t2.requests =
        [{ reqOffset := 2, reqLimit := 1, reqNo := 1, filters := "",
           displayOffset := 1, displayLimit := 3 }] ∧
      t2.renderLog = []) ∧
    (∃ t2 : Table Char, showRows scanExample 3 1 = Except.ok t2 ∧
      t2.requests = [] ∧ t2.renderLog = [(3, 1)] ∧ t2.displayed = [(3, 'C')]) := by
  constructor
  · obtain ⟨t2, hok, _, hscan, _⟩ :=
      showRows_requests_missing_range scanExample "" 1 3 rfl (by decide) (by decide)
    obtain ⟨lo, hi, h1, h2, h3, hlo, hhi, _, hreq, hlog⟩ :=
      hscan (by decide) ⟨2, by decide, by decide, by decide⟩
    refine ⟨t2, hok, ?_, hlog⟩
    have hlo2 : lo = 2 := by
      have a1 : 1 ≤ lo := h1
      have a3 : lo ≤ 3 := by omega
      interval_cases lo
      · exact absurd hlo (by decide)
      · rfl
      · exact absurd hlo (by decide)
    have hhi2 : hi = 2 := by
      have a1 : 1 ≤ hi := by omega
      have a3 : hi ≤ 3 := by omega
      interval_cases hi
      · exact absurd hhi (by decide)
      · rfl
      · exact absurd hhi (by decide)
    rw [hreq, hlo2, hhi2]
    rfl
  · obtain ⟨t2, hok, _, _, hall⟩ :=
      showRows_requests_missing_range scanExample "" 3 1 rfl (by decide) (by decide)
    obtain ⟨hreq, hlog, hdisp⟩ := hall (by decide) (by
      intro i h1 h2
      have : i = 3 := by omega
      rw [this]
      decide)
    refine ⟨t2, hok, hreq, hlog, ?_⟩
    rw [hdisp]
    decide

/-! ## Filter change -/

/-- C8: `refreshContent`, the new serialization being `s`.  If `s` differs from
the stored one, `showRows(1, limit)` is called on the table with `totalRows`
reset to -1, the cache emptied and `s` stored; the call returns, afterwards these
three still hold, the display offset is 1, and one request was sent, for offset 1
and the limit of the table.  If `s` is the stored serialization nothing
changes. -/
theorem refreshContent_invalidates {Row : Type} (t : Table Row) (s : String)
    (hs : t.filter = some s) :
    (s ≠ t.filters →
      refreshContent t
        = showRows { t with totalRows := -1, fetchedRows := [], filters := s } 1 t.limit ∧
      returned (refreshContent t) = true ∧
      (tableAfter (refreshContent t)).totalRows = -1 ∧
      (tableAfter (refreshContent t)).fetchedRows = [] ∧
      (tableAfter (refreshContent t)).filters = s ∧
      (tableAfter (refreshContent t)).lastoffset = 1 ∧
      (tableAfter (refreshContent t)).renderLog = t.renderLog ∧
      (tableAfter (refreshContent t)).requests = t.requests ++
        [{ reqOffset := 1, reqLimit := t.limit, reqNo := t.sendReqNo + 1, filters := s,
           displayOffset := 1, displayLimit := t.limit }]) ∧
    (s = t.filters → refreshContent t = Except.ok t) := by
  constructor
  · intro hne
    have h1 : refreshContent t
        = showRows { t with totalRows := -1, fetchedRows := [], filters := s } 1 t.limit := by
      unfold refreshContent
      rw [hs]
      simp [hne]
    refine ⟨h1, ?_⟩
    rw [h1]
    simp [showRows, updateLocationHash, returned, tableAfter, getRows, urlFilters, hs]
  · intro heq
    unfold refreshContent
    rw [hs]
    simp [heq]

/-- Typing a filter value on a table showing two cached rows empties the cache. -/
theorem refreshContent_invalidates_witness :
    returned (refreshContent filterExample) = true ∧
    (tableAfter (refreshContent filterExample)).totalRows = -1 ∧
    (tableAfter (refreshContent filterExample)).fetchedRows = [] ∧
    (tableAfter (refreshContent filterExample)).filters = "&name=a" ∧
    (tableAfter (refreshContent filterExample)).lastoffset = 1 :=
  have h := (refreshContent_invalidates filterExample "&name=a" rfl).1 (by decide)
  ⟨h.2.1, h.2.2.1, h.2.2.2.1, h.2.2.2.2.1, h.2.2.2.2.2.1⟩

/-! ## Displaying the same window twice -/

/-- C3, the code on the last page of 95 rows: after `showRows(91, 10)` and the
merge of the rows 91..95, the second `showRows(91, 10)` finds the indices
96..100 uncached and sends a second request, for offset 96 and limit 5. -/
theorem showRows_twice_refetches_past_totalRows :
    (run emptyFilterTable (lastPageTwice.take 2)).totalRows = 95 ∧
    (run emptyFilterTable (lastPageTwice.take 2)).requests.length = 1 ∧
    (∀ i : Int, 91 ≤ i → i ≤ 95 →
      cached (run emptyFilterTable (lastPageTwice.take 2)).fetchedRows i = true) ∧
    (run emptyFilterTable lastPageTwice).requests =
      [{ reqOffset := 91, reqLimit := 10, reqNo := 1, filters := "",
         displayOffset := 91, displayLimit := 10 },
       { reqOffset := 96, reqLimit := 5, reqNo := 2, filters := "",
         displayOffset := 91, displayLimit := 10 }] := by
  refine ⟨by decide, by decide, ?_, by decide⟩
  intro i h1 h2
  interval_cases i <;> decide

/-! ## Rendering and the latest display request -/

/-- C4, the code on a display request served from the cache while a request is
in flight: the response to request 2 is applied (its `reqNo` equals
`sendReqNo`) and `displayRows(11, 10)` puts the rows 11..20 in the display node,
although the latest `showRows` call was `showRows(1, 10)` and `lastoffset` is 1;
the pagination marks page 1 as selected. -/
theorem response_renders_superseded_window :
    (run emptyFilterTable backToCachedPage).lastoffset = 1 ∧
    (run emptyFilterTable backToCachedPage).renderLog = [(1, 10), (1, 10), (11, 10)] ∧
    (run emptyFilterTable backToCachedPage).displayed.map Prod.fst
      = [11, 12, 13, 14, 15, 16, 17, 18, 19, 20] ∧
    (run emptyFilterTable backToCachedPage).sendReqNo = 2 ∧
    (run emptyFilterTable backToCachedPage).recvReqNo = 2 ∧
    (run emptyFilterTable backToCachedPage).pagination =
      [PageItem.link 1 true, PageItem.space, PageItem.link 2 false, PageItem.space,
       PageItem.link 3 false, PageItem.space] := by
  decide

/-! ## Page links -/

/-- C9, the code at `totalRows = 95`, `limit = 10`, `max = 3`, `lastoffset = 51`
(10 pages, current page 6): the main loop inserts the pages 5..9 and leaves with
`i = 10`; the test `i < pages` fails and no link for the last page 10 is
inserted. -/
theorem refreshPagination_omits_last_page :
    pageCount 95 10 = 10 ∧ currentPage 51 10 = 6 ∧
    blockPages 95 10 51 3 = [5, 6, 7, 8, 9] ∧
    loopExit 95 10 51 3 = 10 ∧
    pageItems 95 10 51 3 =
      [PageItem.link 1 false, PageItem.ellipsis,
       PageItem.link 5 false, PageItem.space, PageItem.link 6 true, PageItem.space,
       PageItem.link 7 false, PageItem.space, PageItem.link 8 false, PageItem.space,
       PageItem.link 9 false, PageItem.space] ∧
    linkPages (pageItems 95 10 51 3) = [1, 5, 6, 7, 8, 9] := by
  decide

/-- C10, the code at `totalRows = 95`, `limit = 10`, `max = 3`, `lastoffset = 41`
(10 pages, current page 5): the main loop inserts the five pages 2..6, more than
`max = 3`; page 1 comes right before the block, with no ellipsis, and page 10
after an ellipsis. -/
theorem refreshPagination_block_exceeds_max :
    pageCount 95 10 = 10 ∧ currentPage 41 10 = 5 ∧
    blockPages 95 10 41 3 = [2, 3, 4, 5, 6] ∧
    pageItems 95 10 41 3 =
      [PageItem.link 1 false,
       PageItem.link 2 false, PageItem.space, PageItem.link 3 false, PageItem.space,
       PageItem.link 4 false, PageItem.space, PageItem.link 5 true, PageItem.space,
       PageItem.link 6 false, PageItem.space,
       PageItem.ellipsis, PageItem.link 10 false] := by
  decide

/-! ## The gap example -/

/-- The cached indices of `gapExample` are exactly 1, 2, 3, 7 and 8. -/
theorem gapExample_cached (i : Int) :
    cached gapExample.fetchedRows i = true ↔ (i = 1 ∨ i = 2 ∨ i = 3 ∨ i = 7 ∨ i = 8) := by
  by_cases h0 : i < 0
  · simp only [cached, read_neg _ i h0]
    constructor
    · intro h; simp at h
    · intro h; omega
  · by_cases h9 : 9 ≤ i
    · have : read gapExample.fetchedRows i = none := by
        unfold read readAt
        rw [if_neg h0]
        have : gapExample.fetchedRows[i.toNat]? = none :=
          List.getElem?_eq_none (by simp [gapExample, newTable]; omega)
        rw [this]
      simp only [cached, this]
      constructor
      · intro h; simp at h
      · intro h; omega
    · have h1 : 0 ≤ i := by omega
      have h2 : i ≤ 8 := by omega
      interval_cases i <;> decide

/-- C13 as stated fails: for the cache {1, 2, 3, 7, 8} of a table of 20 rows and
the window of offset 1 and limit 9 the scan does not end with `max = 6`, and the
request `showRows` sends is not for offset 4 and limit 3. -/
theorem showRows_gap_example_not_four_to_six :
    scanMissing gapExample.fetchedRows 1 9 ≠ (4, 6) ∧
    returned (showRows gapExample 1 9) = true ∧
    (tableAfter (showRows gapExample 1 9)).requests.map (fun r => (r.reqOffset, r.reqLimit))
      ≠ [(4, 3)] := by
  decide

/-- C13, amended: on a table that has a filter, for a cache with `totalRows`
known and at least 9 (the window lies within the rows of the server) that holds
rows at exactly the indices 1, 2, 3, 7, 8, the window of offset 1 and limit 9
contains the uncached index 9 as well, and the range `showRows` requests is
`min = 4`, `max = 9` (offset 4, limit 6). -/
theorem showRows_gap_example {Row : Type} (t : Table Row) (s : String)
    (hf : t.filter = some s) (htot : 9 ≤ t.totalRows)
    (hc : ∀ i : Int, cached t.fetchedRows i = true ↔ (i = 1 ∨ i = 2 ∨ i = 3 ∨ i = 7 ∨ i = 8)) :
    scanMissing t.fetchedRows 1 9 = (4, 9) ∧
    ∃ t2 : Table Row, showRows t 1 9 = Except.ok t2 ∧
      t2.requests = t.requests ++
        [{ reqOffset := 4, reqLimit := 6, reqNo := t.sendReqNo + 1, filters := s,
           displayOffset := 1, displayLimit := 9 }] ∧
      t2.renderLog = t.renderLog := by
  have hknown : t.totalRows ≠ -1 := by omega
  have hun : ∀ i : Int, cached t.fetchedRows i = false ↔
      ¬ (i = 1 ∨ i = 2 ∨ i = 3 ∨ i = 7 ∨ i = 8) := by
    intro i
    rw [← hc i]
    simp
  have h4 : cached t.fetchedRows 4 = false := (hun 4).2 (by omega)
  have h9 : cached t.fetchedRows 9 = false := (hun 9).2 (by omega)
  have e9 : scanMissing t.fetchedRows 1 9 = (4, 9) := by
    rcases scanMissing_spec t.fetchedRows 1 9 (by decide) (by decide) with
      ⟨_, hall⟩ | ⟨lo, hi, he, h1, h2, h3, hlo, hhi, hmin⟩
    · rw [hall 4 (by decide) (by decide)] at h4
      simp at h4
    · have a4 := hmin 4 (by decide) (by decide) h4
      have a9 := hmin 9 (by decide) (by decide) h9
      have hlo2 := (hun lo).1 hlo
      have : lo = 4 := by omega
      have : hi = 9 := by omega
      rw [he]
      simp [*]
  refine ⟨e9, _, showRows_of_filter t s 1 9 hf, ?_, ?_⟩
  · simp [hknown, e9, getRows, refreshPagination, urlFilters, hf]
  · simp [hknown, e9, getRows, refreshPagination]

/-- The gap example at `gapExample`: the request is for offset 4 and limit 6. -/
theorem showRows_gap_example_witness :
    scanMissing gapExample.fetchedRows 1 9 = (4, 9) ∧
    ∃ t2 : Table Char, showRows gapExample 1 9 = Except.ok t2 ∧
      t2.requests = gapExample.requests ++
        [{ reqOffset := 4, reqLimit := 6, reqNo := gapExample.sendReqNo + 1, filters := "",
           displayOffset := 1, displayLimit := 9 }] ∧
      t2.renderLog = gapExample.renderLog :=
  showRows_gap_example gapExample "" rfl (by decide) gapExample_cached

/-! ## Page numbers and offsets -/

theorem currentPage_of_page_offset (limit page : Int) (hlim : 2 ≤ limit) :
    currentPage ((page - 1) * limit + 1) limit = page := by
  unfold currentPage
  have h0 : limit ≠ 0 := by omega
  have h1 : (page - 1) * limit + 1 = 1 + (page - 1) * limit := by ring
  rw [h1, Int.add_mul_ediv_right _ _ h0, Int.ediv_eq_zero_of_lt (by decide) (by omega)]
  omega

/-- C15, the code at `limit = 1`: `gotoPage(2)` displays offset 2, for which
`Math.floor(lastoffset / limit) + 1` is 3, not 2; the pagination marks page 3 as
selected, `gotoNextPage()` then displays offset 4, the page 4 of `gotoPage`,
and `gotoPrevPage()` displays offset 2 again.  The page of `updateLocationHash`,
`(lastoffset - 1) / limit + 1`, is 2.  None of the calls throws. -/
theorem currentPage_off_by_one_at_limit_one :
    returned (gotoPage limitOneExample 2) = true ∧
    (tableAfter (gotoPage limitOneExample 2)).lastoffset = 2 ∧
    (tableAfter (gotoPage limitOneExample 2)).displayed = [(2, 'B')] ∧
    currentPage (tableAfter (gotoPage limitOneExample 2)).lastoffset
      (tableAfter (gotoPage limitOneExample 2)).limit = 3 ∧
    selectedPages (tableAfter (gotoPage limitOneExample 2)).pagination = [3] ∧
    returned (gotoNextPage (tableAfter (gotoPage limitOneExample 2))) = true ∧
    (tableAfter (gotoNextPage (tableAfter (gotoPage limitOneExample 2)))).lastoffset = 4 ∧
    (tableAfter (gotoNextPage (tableAfter (gotoPage limitOneExample 2)))).displayed
      = [(4, 'D')] ∧
    returned (gotoPrevPage (tableAfter (gotoPage limitOneExample 2))) = true ∧
    (tableAfter (gotoPrevPage (tableAfter (gotoPage limitOneExample 2)))).lastoffset = 2 ∧
    ((tableAfter (gotoPage limitOneExample 2)).lastoffset - 1)
      / (tableAfter (gotoPage limitOneExample 2)).limit + 1 = 2 := by
  decide

/-! ## The links of `refreshPagination` -/

theorem mem_countedLoop (lo hi x : Int) : x ∈ countedLoop lo hi ↔ lo ≤ x ∧ x ≤ hi := by
  unfold countedLoop
  rw [List.mem_map]
  constructor
  · rintro ⟨k, hk, rfl⟩
    rw [List.mem_range] at hk
    omega
  · intro h
    refine ⟨(x - lo).toNat, ?_, ?_⟩
    · rw [List.mem_range]
      omega
    · omega

theorem countedLoop_sorted (lo hi : Int) : (countedLoop lo hi).Pairwise (fun a b => a < b) := by
  unfold countedLoop
  rw [List.pairwise_map]
  exact List.Pairwise.imp (fun h => by omega) (List.pairwise_lt_range _)

theorem length_countedLoop (lo hi : Int) (h : lo ≤ hi + 1) :
    ((countedLoop lo hi).length : Int) = hi + 1 - lo := by
  unfold countedLoop
  rw [List.length_map, List.length_range]
  omega

theorem linkPages_append (l1 l2 : List PageItem) :
    linkPages (l1 ++ l2) = linkPages l1 ++ linkPages l2 := by
  induction l1 with
  | nil => rfl
  | cons x rest ih =>
    cases x with
    | link p sel => simp [linkPages, ih]
    | ellipsis => simp [linkPages, ih]
    | space => simp [linkPages, ih]

theorem selectedPages_append (l1 l2 : List PageItem) :
    selectedPages (l1 ++ l2) = selectedPages l1 ++ selectedPages l2 := by
  induction l1 with
  | nil => rfl
  | cons x rest ih =>
    cases x with
    | link p sel => cases sel <;> simp [selectedPages, ih]
    | ellipsis => simp [selectedPages, ih]
    | space => simp [selectedPages, ih]

theorem linkPages_block (cur : Int) (l : List Int) :
    linkPages (l.flatMap (fun i => [PageItem.link i (decide (cur = i)), PageItem.space])) = l := by
  induction l with
  | nil => rfl
  | cons x rest ih =>
    rw [List.flatMap_cons, linkPages_append, ih]
    rfl

theorem selectedPages_block (cur : Int) (l : List Int) :
    selectedPages (l.flatMap (fun i => [PageItem.link i (decide (cur = i)), PageItem.space]))
      = l.filter (fun i => decide (cur = i)) := by
  induction l with
  | nil => rfl
  | cons x rest ih =>
    rw [List.flatMap_cons, selectedPages_append, ih]
    by_cases h : cur = x
    · simp [selectedPages, h]
    · simp [selectedPages, h]

theorem filter_eq_singleton (cur : Int) (l : List Int) (hs : l.Pairwise (fun a b => a < b))
    (hm : cur ∈ l) : l.filter (fun i => decide (cur = i)) = [cur] := by
  induction l with
  | nil => simp at hm
  | cons x rest ih =>
    rw [List.pairwise_cons] at hs
    by_cases h : cur = x
    · subst h
      have hnone : rest.filter (fun i => decide (cur = i)) = [] := by
        rw [List.filter_eq_nil_iff]
        intro a ha
        have := hs.1 a ha
        simp
        omega
      simp [hnone]
    · have hm2 : cur ∈ rest := by
        rcases List.mem_cons.1 hm with h1 | h1
        · exact absurd h1 h
        · exact h1
      simp [h, ih hs.2 hm2]

theorem linkPages_pageItems (totalRows limit lastoffset max : Int) :
    linkPages (pageItems totalRows limit lastoffset max)
      = linkPages (firstItems (startPage (currentPage lastoffset limit)
            (currentMax max (pageCount totalRows limit))))
        ++ blockPages totalRows limit lastoffset max
        ++ linkPages (lastItems (loopExit totalRows limit lastoffset max)
            (pageCount totalRows limit)) := by
  unfold pageItems
  simp only [linkPages_append, linkPages_block]

theorem selectedPages_pageItems (totalRows limit lastoffset max : Int) :
    selectedPages (pageItems totalRows limit lastoffset max)
      = (blockPages totalRows limit lastoffset max).filter
          (fun i => decide (currentPage lastoffset limit = i)) := by
  have h1 : ∀ st : Int, selectedPages (firstItems st) = [] := by
    intro st
    unfold firstItems
    by_cases a : st > 1 <;> by_cases b : st > 2 <;> simp [a, b, selectedPages]
  have h2 : ∀ i pages : Int, selectedPages (lastItems i pages) = [] := by
    intro i pages
    unfold lastItems
    by_cases a : i < pages <;> by_cases b : i + 1 < pages <;> simp [a, b, selectedPages]
  unfold pageItems
  simp only [selectedPages_append, selectedPages_block, h1, h2, List.nil_append, List.append_nil]

/-- C14: for `totalRows > 0`, `limit >= 1`, `max >= 1` and a current page
`Math.floor(lastoffset / limit) + 1` within `1 .. pages`, the page numbers of
the links inserted by `refreshPagination` are strictly increasing, each lies in
`1 .. pages`, and exactly one link is marked selected, the one of the current
page. -/
theorem refreshPagination_links_increasing (totalRows limit lastoffset max : Int)
    (_htot : 0 < totalRows) (_hlim : 1 ≤ limit) (hmax : 1 ≤ max)
    (hcur1 : 1 ≤ currentPage lastoffset limit)
    (hcur2 : currentPage lastoffset limit ≤ pageCount totalRows limit) :
    (linkPages (pageItems totalRows limit lastoffset max)).Pairwise (fun a b => a < b) ∧
    (∀ p ∈ linkPages (pageItems totalRows limit lastoffset max),
      1 ≤ p ∧ p ≤ pageCount totalRows limit) ∧
    selectedPages (pageItems totalRows limit lastoffset max) = [currentPage lastoffset limit] := by
  have hcm : currentMax max (pageCount totalRows limit) = max := by
    unfold currentMax
    rw [if_neg (by omega)]
  have hq1 : currentPage lastoffset limit / max * max ≤ currentPage lastoffset limit :=
    Int.ediv_mul_le _ (by omega)
  have hq2 : currentPage lastoffset limit < (currentPage lastoffset limit / max + 1) * max :=
    Int.lt_ediv_add_one_mul_self _ (by omega)
  have hq3 : (currentPage lastoffset limit / max + 1) * max
      = currentPage lastoffset limit / max * max + max := by ring
  generalize hpages : pageCount totalRows limit = pages at *
  generalize hc : currentPage lastoffset limit = cur at *
  generalize hqm : cur / max * max = qm at *
  have hstart : startPage cur max = qm - 1 := by
    unfold startPage
    rw [hqm]
  have hlo1 : 1 ≤ blockStart (qm - 1) := by
    unfold blockStart
    split <;> omega
  have hlo2 : blockStart (qm - 1) ≤ cur := by
    unfold blockStart
    split <;> omega
  have hlo3 : qm - 1 > 1 → blockStart (qm - 1) = qm - 1 := by
    intro h
    unfold blockStart
    rw [if_neg (by omega)]
  have hhi1 : cur ≤ blockEnd (qm - 1) max pages := by
    unfold blockEnd
    rw [le_min_iff]
    omega
  have hhi2 : blockEnd (qm - 1) max pages ≤ pages := by
    unfold blockEnd
    exact min_le_right _ _
  have hblock : blockPages totalRows limit lastoffset max
      = countedLoop (blockStart (qm - 1)) (blockEnd (qm - 1) max pages) := by
    unfold blockPages
    simp only [hpages, hc, hcm, hstart]
  have hexit : loopExit totalRows limit lastoffset max = blockEnd (qm - 1) max pages + 1 := by
    unfold loopExit
    simp only [hpages, hc, hcm, hstart, hblock]
    rw [length_countedLoop _ _ (by omega)]
    omega
  have hfirst : linkPages (firstItems (qm - 1)) = if qm - 1 > 1 then [1] else [] := by
    unfold firstItems
    by_cases a : qm - 1 > 1 <;> by_cases b : qm - 1 > 2 <;> simp [a, b, linkPages]
  have hlast : ∀ i : Int, linkPages (lastItems i pages) = if i < pages then [pages] else [] := by
    intro i
    unfold lastItems
    by_cases a : i < pages <;> by_cases b : i + 1 < pages <;> simp [a, b, linkPages]
  have hlinks : linkPages (pageItems totalRows limit lastoffset max)
      = (if qm - 1 > 1 then [1] else [])
        ++ countedLoop (blockStart (qm - 1)) (blockEnd (qm - 1) max pages)
        ++ (if blockEnd (qm - 1) max pages + 1 < pages then [pages] else []) := by
    rw [linkPages_pageItems, hexit, hblock]
    simp only [hpages, hc, hcm, hstart, hfirst, hlast]
  refine ⟨?_, ?_, ?_⟩
  · rw [hlinks, List.pairwise_append, List.pairwise_append]
    refine ⟨⟨?_, countedLoop_sorted _ _, ?_⟩, ?_, ?_⟩
    · split <;> simp
    · intro a ha b hb
      rw [mem_countedLoop] at hb
      by_cases h : qm - 1 > 1
      · rw [if_pos h] at ha
        simp at ha
        rw [hlo3 h] at hb
        omega
      · rw [if_neg h] at ha
        simp at ha
    · split <;> simp
    · intro a ha b hb
      by_cases h2 : blockEnd (qm - 1) max pages + 1 < pages
      · rw [if_pos h2] at hb
        simp at hb
        rw [List.mem_append] at ha
        rcases ha with ha | ha
        · by_cases h : qm - 1 > 1
          · rw [if_pos h] at ha
            simp at ha
            omega
          · rw [if_neg h] at ha
            simp at ha
        · rw [mem_countedLoop] at ha
          omega
      · rw [if_neg h2] at hb
        simp at hb
  · intro p hp
    rw [hlinks, List.mem_append, List.mem_append] at hp
    rcases hp with (hp | hp) | hp
    · by_cases h : qm - 1 > 1
      · rw [if_pos h] at hp
        simp at hp
        omega
      · rw [if_neg h] at hp
        simp at hp
    · rw [mem_countedLoop] at hp
      omega
    · by_cases h2 : blockEnd (qm - 1) max pages + 1 < pages
      · rw [if_pos h2] at hp
        simp at hp
        omega
      · rw [if_neg h2] at hp
        simp at hp
  · rw [selectedPages_pageItems, hblock, hc]
    exact filter_eq_singleton cur _ (countedLoop_sorted _ _)
      ((mem_countedLoop _ _ _).2 ⟨hlo2, hhi1⟩)

/-- The links for 95 rows, limit 10, at most 3 pages, current page 5. -/
theorem refreshPagination_links_increasing_witness :
    (linkPages (pageItems 95 10 41 3)).Pairwise (fun a b => a < b) ∧
    (∀ p ∈ linkPages (pageItems 95 10 41 3), 1 ≤ p ∧ p ≤ pageCount 95 10) ∧
    selectedPages (pageItems 95 10 41 3) = [currentPage 41 10] :=
  refreshPagination_links_increasing 95 10 41 3 (by decide) (by decide) (by decide)
    (by decide) (by decide)

/-! ## The class of a tag -/

theorem pickLevel_single (map : Hash) (count l : ℚ) : pickLevel map count [l] = map.get l := rfl

theorem pickLevel_cons_cons (map : Hash) (count l l2 : ℚ) (rest : List ℚ) :
    pickLevel map count (l :: l2 :: rest)
      = if count ≥ l then map.get l else pickLevel map count (l2 :: rest) := rfl

theorem pickLevel_head (map : Hash) (count l : ℚ) (rest : List ℚ) (h : l ≤ count) :
    pickLevel map count (l :: rest) = map.get l := by
  cases rest with
  | nil => rfl
  | cons l2 rest => rw [pickLevel_cons_cons, if_pos h]

theorem pickLevel_last (map : Hash) (count : ℚ) (levels : List ℚ) (k : ℚ)
    (hlast : levels.getLast? = some k) (hall : ∀ l ∈ levels, count < l) :
    pickLevel map count levels = map.get k := by
  induction levels with
  | nil => simp at hlast
  | cons l rest ih =>
    cases rest with
    | nil =>
      simp at hlast
      rw [pickLevel_single, hlast]
    | cons l2 rest =>
      have hl : ¬ count ≥ l := not_le.2 (hall l (List.mem_cons_self _ _))
      rw [pickLevel_cons_cons, if_neg hl]
      apply ih
      · simpa [List.getLast?_cons_cons] using hlast
      · intro x hx
        exact hall x (List.mem_cons_of_mem _ hx)

theorem pickLevel_descending (map : Hash) (count : ℚ) (levels : List ℚ)
    (hdesc : levels.Pairwise (fun a b => b < a)) (k : ℚ) (hk : k ∈ levels) (hle : k ≤ count)
    (hmax : ∀ x ∈ levels, x ≤ count → x ≤ k) :
    pickLevel map count levels = map.get k := by
  induction levels with
  | nil => simp at hk
  | cons l rest ih =>
    rw [List.pairwise_cons] at hdesc
    by_cases hl : l ≤ count
    · have h1 : l ≤ k := hmax l (List.mem_cons_self _ _) hl
      have h2 : k = l := by
        rcases List.mem_cons.1 hk with h | h
        · exact h
        · exact absurd (hdesc.1 k h) (not_lt.2 h1)
      rw [pickLevel_head map count l rest hl, h2]
    · have hk2 : k ∈ rest := by
        rcases List.mem_cons.1 hk with h | h
        · rw [h] at hle
          exact absurd hle hl
        · exact h
      cases rest with
      | nil => simp at hk2
      | cons l2 rest =>
        rw [pickLevel_cons_cons, if_neg hl]
        exact ih hdesc.2 hk2 (fun x hx => hmax x (List.mem_cons_of_mem _ hx))

/-! ## The popularity map as a `Hash` -/

theorem Hash.set_new (h : Hash) (key : ℚ) (value : String)
    (hnew : ∀ kv ∈ h.entries, kv.1 ≠ key) :
    h.set key value = { entries := h.entries ++ [(key, value)] } := by
  unfold Hash.set
  have : h.entries.any (fun kv => decide (kv.1 = key)) = false := by
    rw [List.any_eq_false]
    intro kv hkv
    simpa using hnew kv hkv
  simp [this]

theorem foldl_set_entries (kvs : List (ℚ × String)) (h0 : Hash)
    (hn : (h0.entries.map Prod.fst ++ kvs.map Prod.fst).Nodup) :
    (kvs.foldl (fun (h : Hash) (kv : ℚ × String) => h.set kv.1 kv.2) h0).entries
      = h0.entries ++ kvs := by
  induction kvs generalizing h0 with
  | nil => simp
  | cons kv rest ih =>
    rw [List.foldl_cons]
    have hnew : ∀ e ∈ h0.entries, e.1 ≠ kv.1 := by
      intro e he heq
      rw [List.nodup_append] at hn
      exact hn.2.2 (List.mem_map_of_mem Prod.fst he)
        (by rw [heq]; exact List.mem_map_of_mem Prod.fst (List.mem_cons_self _ _))
    rw [Hash.set_new h0 kv.1 kv.2 hnew, ih]
    · simp
    · simpa using hn

theorem Hash.keys_perm (h : Hash) : h.keys.Perm (h.entries.map Prod.fst) := by
  unfold Hash.keys
  exact (List.Perm.append_right _ (List.perm_insertionSort _ _)).trans
    (List.filter_append_perm _ _)

theorem Hash.get_of_mem (h : Hash) (k : ℚ) (v : String)
    (hn : (h.entries.map Prod.fst).Nodup) (hm : (k, v) ∈ h.entries) : h.get k = some v := by
  unfold Hash.get
  obtain ⟨es⟩ := h
  simp only at hn hm ⊢
  induction es with
  | nil => simp at hm
  | cons e rest ih =>
    rw [List.map_cons, List.nodup_cons] at hn
    rcases List.mem_cons.1 hm with heq | hin
    · subst heq
      simp
    · have hne : e.1 ≠ k := by
        intro heq
        apply hn.1
        rw [heq]
        exact List.mem_map_of_mem Prod.fst hin
      simp [List.find?_cons, hne, ih hn.2 hin]

theorem Hash.get_injective (h : Hash) (k1 k2 : ℚ)
    (hn : (h.entries.map Prod.fst).Nodup) (hv : (h.entries.map Prod.snd).Nodup)
    (h1 : k1 ∈ h.entries.map Prod.fst) (h2 : k2 ∈ h.entries.map Prod.fst)
    (heq : h.get k1 = h.get k2) : k1 = k2 := by
  obtain ⟨e1, he1, rfl⟩ := List.mem_map.1 h1
  obtain ⟨e2, he2, rfl⟩ := List.mem_map.1 h2
  rw [Hash.get_of_mem h e1.1 e1.2 hn he1, Hash.get_of_mem h e2.1 e2.2 hn he2] at heq
  have := List.inj_on_of_nodup_map hv he1 he2 (Option.some.inj heq)
  rw [this]

/-! ## Counting the tags -/

theorem countTags_snoc (tags : List Tag) (t : Tag) :
    countTags (tags ++ [t]) = countStep (countTags tags) t := by
  simp [countTags, List.foldl_append]

theorem countTags_spec (tags : List Tag) (hpos : ∀ t ∈ tags, 0 < t.count) :
    (countTags tags).totalCount = (tags.map Tag.count).sum ∧
    (tags = [] → (countTags tags).minCount = 0 ∧ (countTags tags).maxCount = -1) ∧
    (tags ≠ [] →
      (∃ t ∈ tags, t.count = (countTags tags).minCount) ∧
      (∀ t ∈ tags, (countTags tags).minCount ≤ t.count) ∧
      (∃ t ∈ tags, t.count = (countTags tags).maxCount) ∧
      (∀ t ∈ tags, t.count ≤ (countTags tags).maxCount)) := by
  induction tags using List.reverseRecOn with
  | nil => simp [countTags]
  | append_singleton l a ih =>
    have hposl : ∀ t ∈ l, 0 < t.count := fun t ht => hpos t (List.mem_append_left _ ht)
    have hposa : 0 < a.count := hpos a (by simp)
    obtain ⟨htot, hnil, hcons⟩ := ih hposl
    rw [countTags_snoc]
    refine ⟨by simp [countStep, htot], by simp, fun _ => ?_⟩
    by_cases hl : l = []
    · obtain ⟨h1, h2⟩ := hnil hl
      subst hl
      simp [countStep, h1, h2]
    · obtain ⟨⟨tm, htm, hmin⟩, hminle, ⟨tx, htx, hmax⟩, hmaxle⟩ := hcons hl
      have hminpos : 0 < (countTags l).minCount := by rw [← hmin]; exact hposl tm htm
      have hmaxpos : 0 < (countTags l).maxCount := by rw [← hmax]; exact hposl tx htx
      have hm0 : ¬ (countTags l).minCount = 0 := by omega
      have hx0 : ¬ (countTags l).maxCount = -1 := by omega
      refine ⟨?_, ?_, ?_, ?_⟩
      · by_cases hlt : a.count < (countTags l).minCount
        · exact ⟨a, by simp, by simp [countStep, hlt]⟩
        · exact ⟨tm, List.mem_append_left _ htm, by simp [countStep, hlt, hm0, hmin]⟩
      · intro t ht
        by_cases hlt : a.count < (countTags l).minCount
        · simp only [countStep, hlt, true_or, if_true]
          rcases List.mem_append.1 ht with h | h
          · have := hminle t h
            omega
          · simp at h
            rw [h]
        · simp only [countStep, hlt, hm0, or_self, if_false]
          rcases List.mem_append.1 ht with h | h
          · exact hminle t h
          · simp at h
            rw [h]
            omega
      · by_cases hgt : a.count > (countTags l).maxCount
        · exact ⟨a, by simp, by simp [countStep, hgt]⟩
        · exact ⟨tx, List.mem_append_left _ htx, by simp [countStep, hgt, hx0, hmax]⟩
      · intro t ht
        by_cases hgt : a.count > (countTags l).maxCount
        · simp only [countStep, hgt, true_or, if_true]
          rcases List.mem_append.1 ht with h | h
          · have := hmaxle t h
            omega
          · simp at h
            rw [h]
        · simp only [countStep, hgt, hx0, or_self, if_false]
          rcases List.mem_append.1 ht with h | h
          · exact hmaxle t h
          · simp at h
            rw [h]
            omega

theorem sum_ge_of_all_ge (xs : List Int) (m : Int) (h : ∀ x ∈ xs, m ≤ x) :
    m * (xs.length : Int) ≤ xs.sum := by
  induction xs with
  | nil => simp
  | cons x rest ih =>
    have h1 := h x (List.mem_cons_self _ _)
    have h2 := ih (fun y hy => h y (List.mem_cons_of_mem _ hy))
    simp only [List.length_cons, List.sum_cons]
    push_cast
    linarith

theorem sum_gt_of_some_gt (xs : List Int) (m : Int) (h : ∀ x ∈ xs, m ≤ x)
    (hx : ∃ x ∈ xs, m < x) : m * (xs.length : Int) < xs.sum := by
  induction xs with
  | nil => simp at hx
  | cons x rest ih =>
    have h1 := h x (List.mem_cons_self _ _)
    have hrest : ∀ y ∈ rest, m ≤ y := fun y hy => h y (List.mem_cons_of_mem _ hy)
    have h2 := sum_ge_of_all_ge rest m hrest
    simp only [List.length_cons, List.sum_cons]
    push_cast
    by_cases hlt : m < x
    · linarith
    · obtain ⟨y, hy, hmy⟩ := hx
      rcases List.mem_cons.1 hy with heq | hin
      · rw [heq] at hmy
        exact absurd hmy hlt
      · have := ih hrest ⟨y, hin, hmy⟩
        linarith

theorem sum_le_of_all_le (xs : List Int) (m : Int) (h : ∀ x ∈ xs, x ≤ m) :
    xs.sum ≤ m * (xs.length : Int) := by
  induction xs with
  | nil => simp
  | cons x rest ih =>
    have h1 := h x (List.mem_cons_self _ _)
    have h2 := ih (fun y hy => h y (List.mem_cons_of_mem _ hy))
    simp only [List.length_cons, List.sum_cons]
    push_cast
    linarith

theorem sum_lt_of_some_lt (xs : List Int) (m : Int) (h : ∀ x ∈ xs, x ≤ m)
    (hx : ∃ x ∈ xs, x < m) : xs.sum < m * (xs.length : Int) := by
  induction xs with
  | nil => simp at hx
  | cons x rest ih =>
    have h1 := h x (List.mem_cons_self _ _)
    have hrest : ∀ y ∈ rest, y ≤ m := fun y hy => h y (List.mem_cons_of_mem _ hy)
    have h2 := sum_le_of_all_le rest m hrest
    simp only [List.length_cons, List.sum_cons]
    push_cast
    by_cases hlt : x < m
    · linarith
    · obtain ⟨y, hy, hmy⟩ := hx
      rcases List.mem_cons.1 hy with heq | hin
      · rw [heq] at hmy
        exact absurd hmy hlt
      · have := ih hrest ⟨y, hin, hmy⟩
        linarith

/-! ## The thresholds of `buildPopularityMap` -/

theorem roundDouble_eval (q r : ℚ) (n d m : Nat) (e : Int) (hq : q = (n : ℚ) / (d : ℚ))
    (hn : 0 < n) (hd : 0 < d) (hc : Nat.Coprime n d) (h : nearestDouble n d = (m, e))
    (hr : r = (m : ℚ) * (2 : ℚ) ^ e) : roundDouble q = r := by
  have hpos : 0 < q := by
    rw [hq]
    have h1 : (0 : ℚ) < (n : ℚ) := by exact_mod_cast hn
    have h2 : (0 : ℚ) < (d : ℚ) := by exact_mod_cast hd
    exact div_pos h1 h2
  have hnum : q.num = (n : Int) := by
    rw [hq]
    have := Rat.num_div_eq_of_coprime (a := (n : Int)) (b := (d : Int))
      (by exact_mod_cast hd) (by simpa using hc)
    simpa using this
  have hden : q.den = d := by
    rw [hq]
    have := Rat.den_div_eq_of_coprime (a := (n : Int)) (b := (d : Int))
      (by exact_mod_cast hd) (by simpa using hc)
    simpa using this
  unfold roundDouble
  rw [if_neg hpos.ne', if_neg (not_lt.2 hpos.le), hnum, hden]
  simp [h, hr]

theorem levelsHalf_eq : levelsHalf = 3 := by
  unfold levelsHalf
  exact roundDouble_eval _ _ 3 1 6755399441055744 (-51) (by norm_num [popularityLevels])
    (by decide) (by decide) (by decide) (by decide) (by norm_num)

theorem levelFold_thresholds (m s1 s2 : ℚ) :
    (popularityLevels.foldl (levelStep 3 s2)
      { count := 0, intervalSize := s1, halfPassed := false, previousPopularityMax := m,
        popularityMap := { entries := [] }, thresholds := [] }).thresholds
      = [roundDouble (m + s1),
         roundDouble (roundDouble (m + s1) + s1),
         roundDouble (roundDouble (roundDouble (m + s1) + s1) + s1),
         roundDouble (roundDouble (roundDouble (roundDouble (m + s1) + s1) + s1) + s2),
         roundDouble (roundDouble (roundDouble (roundDouble (roundDouble (m + s1) + s1) + s1)
           + s2) + s2),
         roundDouble (roundDouble (roundDouble (roundDouble (roundDouble (roundDouble (m + s1)
           + s1) + s1) + s2) + s2) + s2)] := by
  simp only [popularityLevels, List.foldl_cons, List.foldl_nil, levelStep]
  norm_num

theorem levelFold_popularityMap (m s1 s2 : ℚ) :
    (popularityLevels.foldl (levelStep 3 s2)
      { count := 0, intervalSize := s1, halfPassed := false, previousPopularityMax := m,
        popularityMap := { entries := [] }, thresholds := [] }).popularityMap
      = (((popularityLevels.foldl (levelStep 3 s2)
          { count := 0, intervalSize := s1, halfPassed := false, previousPopularityMax := m,
            popularityMap := { entries := [] }, thresholds := [] }).thresholds).zip
            popularityLevels).foldl
          (fun (h : Hash) (kv : ℚ × String) => h.set kv.1 kv.2) { entries := [] } := by
  simp only [popularityLevels, List.foldl_cons, List.foldl_nil, levelStep]
  norm_num

theorem popularityThresholds_eq (tags : List Tag) :
    ∃ t1 t2 t3 t4 t5 t6 : ℚ,
      popularityThresholds tags = [t1, t2, t3, t4, t5, t6] ∧
      t1 = roundDouble (((countTags tags).minCount : ℚ) + firstHalfIntervalSize tags) ∧
      t2 = roundDouble (t1 + firstHalfIntervalSize tags) ∧
      t3 = roundDouble (t2 + firstHalfIntervalSize tags) ∧
      t4 = roundDouble (t3 + secondHalfIntervalSize tags) ∧
      t5 = roundDouble (t4 + secondHalfIntervalSize tags) ∧
      t6 = roundDouble (t5 + secondHalfIntervalSize tags) := by
  refine ⟨_, _, _, _, _, _, ?_, rfl, rfl, rfl, rfl, rfl, rfl⟩
  unfold popularityThresholds levelLoop
  rw [levelsHalf_eq]
  exact levelFold_thresholds _ _ _

theorem buildPopularityMap_eq_foldl (tags : List Tag) :
    buildPopularityMap tags
      = ((popularityThresholds tags).zip popularityLevels).foldl
          (fun (h : Hash) (kv : ℚ × String) => h.set kv.1 kv.2) { entries := [] } := by
  unfold buildPopularityMap popularityThresholds levelLoop
  rw [levelsHalf_eq]
  exact levelFold_popularityMap _ _ _

theorem Hash.mem_keys_set (h : Hash) (key k : ℚ) (value : String) :
    k ∈ (h.set key value).entries.map Prod.fst ↔ k ∈ h.entries.map Prod.fst ∨ k = key := by
  unfold Hash.set
  by_cases hany : h.entries.any (fun kv => decide (kv.1 = key)) = true
  · rw [if_pos hany]
    have hmap : (h.entries.map (fun kv => if kv.1 = key then (kv.1, value) else kv)).map Prod.fst
        = h.entries.map Prod.fst := by
      rw [List.map_map]
      apply List.map_congr_left
      intro kv _
      by_cases hk : kv.1 = key <;> simp [hk]
    simp only [hmap]
    constructor
    · exact Or.inl
    · rintro (hin | heq)
      · exact hin
      · rw [List.any_eq_true] at hany
        obtain ⟨kv, hkv, hdec⟩ := hany
        rw [heq]
        have : kv.1 = key := by simpa using hdec
        rw [← this]
        exact List.mem_map_of_mem Prod.fst hkv
  · rw [if_neg hany]
    simp

theorem foldl_set_keys (kvs : List (ℚ × String)) (h0 : Hash) (k : ℚ) :
    k ∈ (kvs.foldl (fun (h : Hash) (kv : ℚ × String) => h.set kv.1 kv.2) h0).entries.map Prod.fst
      ↔ k ∈ h0.entries.map Prod.fst ∨ k ∈ kvs.map Prod.fst := by
  induction kvs generalizing h0 with
  | nil => simp
  | cons kv rest ih =>
    rw [List.foldl_cons, ih, Hash.mem_keys_set, List.map_cons, List.mem_cons]
    tauto

theorem thresholds_sorted (a b c : ℚ) (hab : a ≤ b) (hbc : b ≤ c) :
    [a + 1 * (b - a) / 3, a + 2 * (b - a) / 3, a + 3 * (b - a) / 3,
     b + 1 * (c - b) / 3, b + 2 * (c - b) / 3, b + 3 * (c - b) / 3].Pairwise
      (fun x y => x ≤ y) := by
  rw [← List.chain'_iff_pairwise]
  simp only [List.chain'_cons, List.chain'_singleton, and_true]
  refine ⟨?_, ?_, ?_, ?_, ?_⟩ <;> linarith

theorem thresholds_strictly_sorted (a b c : ℚ) (hab : a < b) (hbc : b < c) :
    [a + 1 * (b - a) / 3, a + 2 * (b - a) / 3, a + 3 * (b - a) / 3,
     b + 1 * (c - b) / 3, b + 2 * (c - b) / 3, b + 3 * (c - b) / 3].Pairwise
      (fun x y => x < y) := by
  rw [← List.chain'_iff_pairwise]
  simp only [List.chain'_cons, List.chain'_singleton, and_true]
  refine ⟨?_, ?_, ?_, ?_, ?_⟩ <;> linarith

theorem thresholds_bounds (a b c : ℚ) (hab : a < b) (hbc : b < c) (x : ℚ)
    (hx : x ∈ [a + 1 * (b - a) / 3, a + 2 * (b - a) / 3, a + 3 * (b - a) / 3,
      b + 1 * (c - b) / 3, b + 2 * (c - b) / 3, b + 3 * (c - b) / 3]) :
    a < x ∧ x ≤ c := by
  simp only [List.mem_cons, List.mem_singleton, List.not_mem_nil, or_false] at hx
  rcases hx with h | h | h | h | h | h <;> rw [h] <;> constructor <;> linarith

theorem averageCount_bounds (tags : List Tag) (hne : tags ≠ []) (mn mx : Int)
    (hmin : ∀ t ∈ tags, mn ≤ t.count) (hmax : ∀ t ∈ tags, t.count ≤ mx) :
    (mn : ℚ) ≤ averageCount tags ∧ averageCount tags ≤ (mx : ℚ) ∧
    ((∃ t ∈ tags, mn < t.count) → (mn : ℚ) < averageCount tags) ∧
    ((∃ t ∈ tags, t.count < mx) → averageCount tags < (mx : ℚ)) := by
  have hlen : 0 < tags.length := List.length_pos.2 hne
  have hn : (0 : ℚ) < (tags.length : ℚ) := by exact_mod_cast hlen
  have hmin2 : ∀ x ∈ tags.map Tag.count, mn ≤ x := by
    intro x hx
    obtain ⟨t, ht, rfl⟩ := List.mem_map.1 hx
    exact hmin t ht
  have hmax2 : ∀ x ∈ tags.map Tag.count, x ≤ mx := by
    intro x hx
    obtain ⟨t, ht, rfl⟩ := List.mem_map.1 hx
    exact hmax t ht
  have hl : ((tags.map Tag.count).length : Int) = (tags.length : Int) := by simp
  unfold averageCount
  refine ⟨?_, ?_, ?_, ?_⟩
  · rw [le_div_iff₀ hn]
    have := sum_ge_of_all_ge _ mn hmin2
    rw [hl] at this
    exact_mod_cast this
  · rw [div_le_iff₀ hn]
    have := sum_le_of_all_le _ mx hmax2
    rw [hl] at this
    exact_mod_cast this
  · rintro ⟨t, ht, hlt⟩
    rw [lt_div_iff₀ hn]
    have := sum_gt_of_some_gt _ mn hmin2 ⟨t.count, List.mem_map_of_mem Tag.count ht, hlt⟩
    rw [hl] at this
    exact_mod_cast this
  · rintro ⟨t, ht, hlt⟩
    rw [div_lt_iff₀ hn]
    have := sum_lt_of_some_lt _ mx hmax2 ⟨t.count, List.mem_map_of_mem Tag.count ht, hlt⟩
    rw [hl] at this
    exact_mod_cast this

theorem liClass_extremes_differ (map : Hash) (mn mx : Int)
    (hkeys : (map.entries.map Prod.fst).Nodup) (hvals : (map.entries.map Prod.snd).Nodup)
    (hlen : 2 ≤ map.entries.length)
    (hb : ∀ x ∈ map.entries.map Prod.fst, (mn : ℚ) < x ∧ x ≤ (mx : ℚ)) :
    liClass map mn ≠ liClass map mx := by
  have hperm : map.keys.reverse.Perm (map.entries.map Prod.fst) :=
    (List.reverse_perm _).trans (Hash.keys_perm map)
  have hnodup : map.keys.reverse.Nodup := hperm.nodup_iff.2 hkeys
  have hlen2 : map.keys.reverse.length = map.entries.length := by
    rw [hperm.length_eq, List.length_map]
  have hmem : ∀ x ∈ map.keys.reverse, x ∈ map.entries.map Prod.fst :=
    fun x hx => hperm.mem_iff.1 hx
  unfold liClass
  generalize map.keys.reverse = levels at hnodup hlen2 hmem
  match levels, hnodup, hlen2, hmem with
  | [], _, hlen2, _ => simp at hlen2; omega
  | [_], _, hlen2, _ => simp at hlen2; omega
  | a :: b :: rest, hnodup, _, hmem =>
    obtain ⟨k, hk⟩ : ∃ k, (a :: b :: rest).getLast? = some k := by
      cases h : (a :: b :: rest).getLast? with
      | none => simp at h
      | some k => exact ⟨k, rfl⟩
    have hkin : k ∈ b :: rest := by
      rw [List.getLast?_cons_cons] at hk
      exact List.mem_of_getLast?_eq_some hk
    have hak : a ≠ k := by
      intro h
      rw [List.nodup_cons] at hnodup
      exact hnodup.1 (h ▸ hkin)
    have h1 : pickLevel map (mx : ℚ) (a :: b :: rest) = map.get a :=
      pickLevel_head map _ a _ (hb a (hmem a (List.mem_cons_self _ _))).2
    have h2 : pickLevel map (mn : ℚ) (a :: b :: rest) = map.get k :=
      pickLevel_last map _ _ k hk (fun l hl => (hb l (hmem l hl)).1)
    rw [h1, h2]
    intro heq
    exact hak (Hash.get_injective map a k hkeys hvals (hmem a (List.mem_cons_self _ _))
      (hmem k (List.mem_cons_of_mem _ hkin)) heq.symm)

theorem exactResults_mem (mn mx : Int) (avg : ℚ) :
    avg ∈ exactResults mn mx avg ∧
    avg - (mn : ℚ) ∈ exactResults mn mx avg ∧
    (mx : ℚ) - avg ∈ exactResults mn mx avg ∧
    (avg - (mn : ℚ)) / 3 ∈ exactResults mn mx avg ∧
    ((mx : ℚ) - avg) / 3 ∈ exactResults mn mx avg ∧
    (mn : ℚ) + 1 * (avg - (mn : ℚ)) / 3 ∈ exactResults mn mx avg ∧
    (mn : ℚ) + 2 * (avg - (mn : ℚ)) / 3 ∈ exactResults mn mx avg ∧
    (mn : ℚ) + 3 * (avg - (mn : ℚ)) / 3 ∈ exactResults mn mx avg ∧
    avg + 1 * ((mx : ℚ) - avg) / 3 ∈ exactResults mn mx avg ∧
    avg + 2 * ((mx : ℚ) - avg) / 3 ∈ exactResults mn mx avg ∧
    avg + 3 * ((mx : ℚ) - avg) / 3 ∈ exactResults mn mx avg := by
  unfold exactResults
  simp only [List.mem_cons, true_or, or_true, and_self]

/-- C11, amended: for a non-empty tag list with positive counts, `mn` and `mx`
being the smallest and largest count and `avg` the exact average, whenever the
operations of `buildPopularityMap` are exact (the average, the two deltas, the
two interval sizes and the six sums are doubles, so that no operation rounds),
the six thresholds are `mn + k (avg - mn) / 3` for `k = 1, 2, 3` followed by
`avg + k (mx - avg) / 3` for `k = 1, 2, 3`; they are the keys of the map
returned, they are non-decreasing, the third is `avg` and the sixth is `mx`; when
`mn < mx` they are strictly ascending, the map holds them with the six levels in
this order, and `displayTagCloud` gives different classes to a tag of count `mn`
and a tag of count `mx`. -/
theorem buildPopularityMap_thresholds (tags : List Tag) (mn mx : Int) (hne : tags ≠ [])
    (hpos : ∀ t ∈ tags, 0 < t.count)
    (hmn1 : ∃ t ∈ tags, t.count = mn) (hmn2 : ∀ t ∈ tags, mn ≤ t.count)
    (hmx1 : ∃ t ∈ tags, t.count = mx) (hmx2 : ∀ t ∈ tags, t.count ≤ mx)
    (hexact : ∀ q ∈ exactResults mn mx (averageCount tags), roundDouble q = q) :
    popularityThresholds tags =
      [(mn : ℚ) + 1 * (averageCount tags - mn) / 3,
       (mn : ℚ) + 2 * (averageCount tags - mn) / 3,
       (mn : ℚ) + 3 * (averageCount tags - mn) / 3,
       averageCount tags + 1 * (mx - averageCount tags) / 3,
       averageCount tags + 2 * (mx - averageCount tags) / 3,
       averageCount tags + 3 * (mx - averageCount tags) / 3] ∧
    (∀ k : ℚ, k ∈ (buildPopularityMap tags).entries.map Prod.fst
      ↔ k ∈ popularityThresholds tags) ∧
    (popularityThresholds tags).Pairwise (fun x y => x ≤ y) ∧
    (popularityThresholds tags)[2]? = some (averageCount tags) ∧
    (popularityThresholds tags)[5]? = some (mx : ℚ) ∧
    (mn < mx →
      (popularityThresholds tags).Pairwise (fun x y => x < y) ∧
      (buildPopularityMap tags).entries = (popularityThresholds tags).zip popularityLevels ∧
      ∀ a ∈ tags, ∀ b ∈ tags, a.count = mn → b.count = mx →
        liClass (buildPopularityMap tags) a.count
          ≠ liClass (buildPopularityMap tags) b.count) := by
  obtain ⟨htot, _, hcons⟩ := countTags_spec tags hpos
  obtain ⟨⟨tm, htm, hm⟩, hmin2, ⟨tx, htx, hx⟩, hmax2⟩ := hcons hne
  have hmin : (countTags tags).minCount = mn := by
    obtain ⟨t1, ht1, h1⟩ := hmn1
    have a1 := hmin2 t1 ht1
    have a2 := hmn2 tm htm
    omega
  have hmax : (countTags tags).maxCount = mx := by
    obtain ⟨t1, ht1, h1⟩ := hmx1
    have a1 := hmax2 t1 ht1
    have a2 := hmx2 tx htx
    omega
  obtain ⟨m0, m1, m2, m3, m4, m5, m6, m7, m8, m9, m10⟩ :=
    exactResults_mem mn mx (averageCount tags)
  have hA : countAverage tags = averageCount tags := by
    unfold countAverage
    rw [htot]
    exact hexact _ m0
  have hd1 : firstHalfCountDelta tags = averageCount tags - (mn : ℚ) := by
    unfold firstHalfCountDelta
    rw [hA, hmin]
    exact hexact _ m1
  have hd2 : secondHalfCountDelta tags = (mx : ℚ) - averageCount tags := by
    unfold secondHalfCountDelta
    rw [hA, hmax]
    exact hexact _ m2
  have hs1 : firstHalfIntervalSize tags = (averageCount tags - (mn : ℚ)) / 3 := by
    unfold firstHalfIntervalSize
    rw [hd1, levelsHalf_eq]
    exact hexact _ m3
  have hs2 : secondHalfIntervalSize tags = ((mx : ℚ) - averageCount tags) / 3 := by
    unfold secondHalfIntervalSize
    rw [hd2, levelsHalf_eq]
    exact hexact _ m4
  have hk1 := hexact _ m5
  have hk2 := hexact _ m6
  have hk3 := hexact _ m7
  have hk4 := hexact _ m8
  have hk5 := hexact _ m9
  have hk6 := hexact _ m10
  have hthr : popularityThresholds tags =
      [(mn : ℚ) + 1 * (averageCount tags - mn) / 3,
       (mn : ℚ) + 2 * (averageCount tags - mn) / 3,
       (mn : ℚ) + 3 * (averageCount tags - mn) / 3,
       averageCount tags + 1 * (mx - averageCount tags) / 3,
       averageCount tags + 2 * (mx - averageCount tags) / 3,
       averageCount tags + 3 * (mx - averageCount tags) / 3] := by
    obtain ⟨t1, t2, t3, t4, t5, t6, hlist, e1, e2, e3, e4, e5, e6⟩ :=
      popularityThresholds_eq tags
    rw [hmin, hs1] at e1
    rw [hs1] at e2 e3
    rw [hs2] at e4 e5 e6
    have f1 : t1 = (mn : ℚ) + 1 * (averageCount tags - mn) / 3 := by
      rw [e1, ← hk1]
      congr 1
      ring
    have f2 : t2 = (mn : ℚ) + 2 * (averageCount tags - mn) / 3 := by
      rw [e2, f1, ← hk2]
      congr 1
      ring
    have f3 : t3 = (mn : ℚ) + 3 * (averageCount tags - mn) / 3 := by
      rw [e3, f2, ← hk3]
      congr 1
      ring
    have f4 : t4 = averageCount tags + 1 * (mx - averageCount tags) / 3 := by
      rw [e4, f3, ← hk4]
      congr 1
      ring
    have f5 : t5 = averageCount tags + 2 * (mx - averageCount tags) / 3 := by
      rw [e5, f4, ← hk5]
      congr 1
      ring
    have f6 : t6 = averageCount tags + 3 * (mx - averageCount tags) / 3 := by
      rw [e6, f5, ← hk6]
      congr 1
      ring
    rw [hlist, f1, f2, f3, f4, f5, f6]
  obtain ⟨hb1, hb2, hb3, hb4⟩ := averageCount_bounds tags hne mn mx hmn2 hmx2
  have hlen6 : (popularityThresholds tags).length = 6 := by rw [hthr]; rfl
  have hfst : ((popularityThresholds tags).zip popularityLevels).map Prod.fst
      = popularityThresholds tags :=
    List.map_fst_zip _ _ (by rw [hlen6]; decide)
  have hsnd : ((popularityThresholds tags).zip popularityLevels).map Prod.snd
      = popularityLevels :=
    List.map_snd_zip _ _ (by rw [hlen6]; decide)
  refine ⟨hthr, ?_, ?_, ?_, ?_, ?_⟩
  · intro k
    rw [buildPopularityMap_eq_foldl, foldl_set_keys, hfst]
    simp
  · rw [hthr]
    exact thresholds_sorted _ _ _ hb1 hb2
  · rw [hthr]
    simp only [List.getElem?_cons_succ, List.getElem?_cons_zero, Option.some.injEq]
    ring
  · rw [hthr]
    simp only [List.getElem?_cons_succ, List.getElem?_cons_zero, Option.some.injEq]
    ring
  · intro hlt
    obtain ⟨tx2, htx2, hx2⟩ := hmx1
    obtain ⟨tm2, htm2, hm2⟩ := hmn1
    have hs1lt := hb3 ⟨tx2, htx2, by omega⟩
    have hs2lt := hb4 ⟨tm2, htm2, by omega⟩
    have hasc : (popularityThresholds tags).Pairwise (fun x y => x < y) := by
      rw [hthr]
      exact thresholds_strictly_sorted _ _ _ hs1lt hs2lt
    have hnd : (popularityThresholds tags).Nodup := hasc.imp (fun h => ne_of_lt h)
    have hent : (buildPopularityMap tags).entries
        = (popularityThresholds tags).zip popularityLevels := by
      rw [buildPopularityMap_eq_foldl, foldl_set_entries]
      · rfl
      · simpa [hfst] using hnd
    refine ⟨hasc, hent, ?_⟩
    intro a _ b _ ha hb
    rw [ha, hb]
    apply liClass_extremes_differ
    · rw [hent, hfst]; exact hnd
    · rw [hent, hsnd]; decide
    · rw [hent, List.length_zip, hlen6]; decide
    · intro x hx
      rw [hent, hfst, hthr] at hx
      exact thresholds_bounds _ _ _ hs1lt hs2lt x hx

theorem countAverage_twoTags : countAverage twoTags = 3 / 2 := by
  have h1 : (countTags twoTags).totalCount = 3 := by decide
  have h2 : (twoTags).length = 2 := by decide
  unfold countAverage
  rw [h1, h2]
  exact roundDouble_eval _ _ 3 2 6755399441055744 (-52) (by norm_num)
        (by decide) (by decide) (by decide) (by decide) (by norm_num)

theorem firstHalfIntervalSize_twoTags : firstHalfIntervalSize twoTags = 6004799503160661 / 36028797018963968 := by
  have h : (countTags twoTags).minCount = 1 := by decide
  have hd : firstHalfCountDelta twoTags = 1 / 2 := by
    unfold firstHalfCountDelta
    rw [countAverage_twoTags, h]
    exact roundDouble_eval _ _ 1 2 4503599627370496 (-53) (by norm_num)
        (by decide) (by decide) (by decide) (by decide) (by norm_num)
  unfold firstHalfIntervalSize
  rw [hd, levelsHalf_eq]
  exact roundDouble_eval _ _ 1 6 6004799503160661 (-55) (by norm_num)
        (by decide) (by decide) (by decide) (by decide) (by norm_num)

theorem secondHalfIntervalSize_twoTags : secondHalfIntervalSize twoTags = 6004799503160661 / 36028797018963968 := by
  have h : (countTags twoTags).maxCount = 2 := by decide
  have hd : secondHalfCountDelta twoTags = 1 / 2 := by
    unfold secondHalfCountDelta
    rw [countAverage_twoTags, h]
    exact roundDouble_eval _ _ 1 2 4503599627370496 (-53) (by norm_num)
        (by decide) (by decide) (by decide) (by decide) (by norm_num)
  unfold secondHalfIntervalSize
  rw [hd, levelsHalf_eq]
  exact roundDouble_eval _ _ 1 6 6004799503160661 (-55) (by norm_num)
        (by decide) (by decide) (by decide) (by decide) (by norm_num)

/-- The thresholds of the tag counts 1, 2: 1.1666666666666667, 1.3333333333333335,
1.5000000000000002, 1.666666666666667, 1.8333333333333337, 2.0000000000000004. -/
theorem popularityThresholds_twoTags :
    popularityThresholds twoTags =
      [5254199565265579 / 4503599627370496, 3002399751580331 / 2251799813685248, 6755399441055745 / 4503599627370496,
       1876499844737707 / 1125899906842624, 8256599316845911 / 4503599627370496, 4503599627370497 / 2251799813685248] := by
  obtain ⟨t1, t2, t3, t4, t5, t6, hlist, e1, e2, e3, e4, e5, e6⟩ :=
    popularityThresholds_eq (twoTags)
  have h : (countTags twoTags).minCount = 1 := by decide
  rw [h, firstHalfIntervalSize_twoTags] at e1
  rw [firstHalfIntervalSize_twoTags] at e2 e3
  rw [secondHalfIntervalSize_twoTags] at e4 e5 e6
  have f1 : t1 = 5254199565265579 / 4503599627370496 := by
    rw [e1]
    exact roundDouble_eval _ _ 42033596522124629 36028797018963968 5254199565265579 (-52) (by norm_num)
        (by decide) (by decide) (by decide) (by decide) (by norm_num)
  have f2 : t2 = 3002399751580331 / 2251799813685248 := by
    rw [e2, f1]
    exact roundDouble_eval _ _ 48038396025285293 36028797018963968 6004799503160662 (-52) (by norm_num)
        (by decide) (by decide) (by decide) (by decide) (by norm_num)
  have f3 : t3 = 6755399441055745 / 4503599627370496 := by
    rw [e3, f2]
    exact roundDouble_eval _ _ 54043195528445957 36028797018963968 6755399441055745 (-52) (by norm_num)
        (by decide) (by decide) (by decide) (by decide) (by norm_num)
  have f4 : t4 = 1876499844737707 / 1125899906842624 := by
    rw [e4, f3]
    exact roundDouble_eval _ _ 60047995031606621 36028797018963968 7505999378950828 (-52) (by norm_num)
        (by decide) (by decide) (by decide) (by decide) (by norm_num)
  have f5 : t5 = 8256599316845911 / 4503599627370496 := by
    rw [e5, f4]
    exact roundDouble_eval _ _ 66052794534767285 36028797018963968 8256599316845911 (-52) (by norm_num)
        (by decide) (by decide) (by decide) (by decide) (by norm_num)
  have f6 : t6 = 4503599627370497 / 2251799813685248 := by
    rw [e6, f5]
    exact roundDouble_eval _ _ 72057594037927949 36028797018963968 4503599627370497 (-51) (by norm_num)
        (by decide) (by decide) (by decide) (by decide) (by norm_num)
  rw [hlist, f1, f2, f3, f4, f5, f6]

theorem countAverage_fourTags : countAverage (tagsOf [1, 4, 10, 13]) = 7 := by
  have h1 : (countTags (tagsOf [1, 4, 10, 13])).totalCount = 28 := by decide
  have h2 : ((tagsOf [1, 4, 10, 13])).length = 4 := by decide
  unfold countAverage
  rw [h1, h2]
  exact roundDouble_eval _ _ 7 1 7881299347898368 (-50) (by norm_num)
        (by decide) (by decide) (by decide) (by decide) (by norm_num)

theorem firstHalfIntervalSize_fourTags : firstHalfIntervalSize (tagsOf [1, 4, 10, 13]) = 2 := by
  have h : (countTags (tagsOf [1, 4, 10, 13])).minCount = 1 := by decide
  have hd : firstHalfCountDelta (tagsOf [1, 4, 10, 13]) = 6 := by
    unfold firstHalfCountDelta
    rw [countAverage_fourTags, h]
    exact roundDouble_eval _ _ 6 1 6755399441055744 (-50) (by norm_num)
        (by decide) (by decide) (by decide) (by decide) (by norm_num)
  unfold firstHalfIntervalSize
  rw [hd, levelsHalf_eq]
  exact roundDouble_eval _ _ 2 1 4503599627370496 (-51) (by norm_num)
        (by decide) (by decide) (by decide) (by decide) (by norm_num)

theorem secondHalfIntervalSize_fourTags : secondHalfIntervalSize (tagsOf [1, 4, 10, 13]) = 2 := by
  have h : (countTags (tagsOf [1, 4, 10, 13])).maxCount = 13 := by decide
  have hd : secondHalfCountDelta (tagsOf [1, 4, 10, 13]) = 6 := by
    unfold secondHalfCountDelta
    rw [countAverage_fourTags, h]
    exact roundDouble_eval _ _ 6 1 6755399441055744 (-50) (by norm_num)
        (by decide) (by decide) (by decide) (by decide) (by norm_num)
  unfold secondHalfIntervalSize
  rw [hd, levelsHalf_eq]
  exact roundDouble_eval _ _ 2 1 4503599627370496 (-51) (by norm_num)
        (by decide) (by decide) (by decide) (by decide) (by norm_num)

/-- The thresholds of the tag counts 1, 4, 10, 13. -/
theorem popularityThresholds_fourTags :
    popularityThresholds (tagsOf [1, 4, 10, 13]) =
      [3, 5, 7,
       9, 11, 13] := by
  obtain ⟨t1, t2, t3, t4, t5, t6, hlist, e1, e2, e3, e4, e5, e6⟩ :=
    popularityThresholds_eq ((tagsOf [1, 4, 10, 13]))
  have h : (countTags (tagsOf [1, 4, 10, 13])).minCount = 1 := by decide
  rw [h, firstHalfIntervalSize_fourTags] at e1
  rw [firstHalfIntervalSize_fourTags] at e2 e3
  rw [secondHalfIntervalSize_fourTags] at e4 e5 e6
  have f1 : t1 = 3 := by
    rw [e1]
    exact roundDouble_eval _ _ 3 1 6755399441055744 (-51) (by norm_num)
        (by decide) (by decide) (by decide) (by decide) (by norm_num)
  have f2 : t2 = 5 := by
    rw [e2, f1]
    exact roundDouble_eval _ _ 5 1 5629499534213120 (-50) (by norm_num)
        (by decide) (by decide) (by decide) (by decide) (by norm_num)
  have f3 : t3 = 7 := by
    rw [e3, f2]
    exact roundDouble_eval _ _ 7 1 7881299347898368 (-50) (by norm_num)
        (by decide) (by decide) (by decide) (by decide) (by norm_num)
  have f4 : t4 = 9 := by
    rw [e4, f3]
    exact roundDouble_eval _ _ 9 1 5066549580791808 (-49) (by norm_num)
        (by decide) (by decide) (by decide) (by decide) (by norm_num)
  have f5 : t5 = 11 := by
    rw [e5, f4]
    exact roundDouble_eval _ _ 11 1 6192449487634432 (-49) (by norm_num)
        (by decide) (by decide) (by decide) (by decide) (by norm_num)
  have f6 : t6 = 13 := by
    rw [e6, f5]
    exact roundDouble_eval _ _ 13 1 7318349394477056 (-49) (by norm_num)
        (by decide) (by decide) (by decide) (by decide) (by norm_num)
  rw [hlist, f1, f2, f3, f4, f5, f6]

theorem exactResults_sixTags :
    ∀ q ∈ exactResults 1 10 (averageCount sixTags), roundDouble q = q := by
  have havg : averageCount sixTags = 11 / 2 := by
    norm_num [averageCount, sixTags, tagsOf]
  intro q hq
  rw [havg] at hq
  unfold exactResults at hq
  simp only [List.mem_cons, List.mem_singleton, List.not_mem_nil, or_false] at hq
  rcases hq with rfl | rfl | rfl | rfl | rfl | rfl | rfl | rfl | rfl | rfl | rfl
  · exact roundDouble_eval _ _ 11 2 6192449487634432 (-50) (by norm_num)
        (by decide) (by decide) (by decide) (by decide) (by norm_num)
  · exact roundDouble_eval _ _ 9 2 5066549580791808 (-50) (by norm_num)
        (by decide) (by decide) (by decide) (by decide) (by norm_num)
  · exact roundDouble_eval _ _ 9 2 5066549580791808 (-50) (by norm_num)
        (by decide) (by decide) (by decide) (by decide) (by norm_num)
  · exact roundDouble_eval _ _ 3 2 6755399441055744 (-52) (by norm_num)
        (by decide) (by decide) (by decide) (by decide) (by norm_num)
  · exact roundDouble_eval _ _ 3 2 6755399441055744 (-52) (by norm_num)
        (by decide) (by decide) (by decide) (by decide) (by norm_num)
  · exact roundDouble_eval _ _ 5 2 5629499534213120 (-51) (by norm_num)
        (by decide) (by decide) (by decide) (by decide) (by norm_num)
  · exact roundDouble_eval _ _ 4 1 4503599627370496 (-50) (by norm_num)
        (by decide) (by decide) (by decide) (by decide) (by norm_num)
  · exact roundDouble_eval _ _ 11 2 6192449487634432 (-50) (by norm_num)
        (by decide) (by decide) (by decide) (by decide) (by norm_num)
  · exact roundDouble_eval _ _ 7 1 7881299347898368 (-50) (by norm_num)
        (by decide) (by decide) (by decide) (by decide) (by norm_num)
  · exact roundDouble_eval _ _ 17 2 4785074604081152 (-49) (by norm_num)
        (by decide) (by decide) (by decide) (by decide) (by norm_num)
  · exact roundDouble_eval _ _ 10 1 5629499534213120 (-49) (by norm_num)
        (by decide) (by decide) (by decide) (by decide) (by norm_num)

/-- The counts 1, 1, 1, 10, 10, 10, for which every operation is exact, give the
thresholds 2.5, 4, 5.5, 7, 8.5, 10, and the tags of count 1 and of count 10 get
different classes. -/
theorem buildPopularityMap_thresholds_witness :
    popularityThresholds sixTags = [5 / 2, 4, 11 / 2, 7, 17 / 2, 10] ∧
    (popularityThresholds sixTags).Pairwise (fun x y => x < y) ∧
    liClass (buildPopularityMap sixTags) 1 ≠ liClass (buildPopularityMap sixTags) 10 := by
  have h1 : ({ tag := "t", count := 1 } : Tag) ∈ sixTags := by decide
  have h10 : ({ tag := "t", count := 10 } : Tag) ∈ sixTags := by decide
  obtain ⟨hthr, _, _, _, _, hcls⟩ :=
    buildPopularityMap_thresholds sixTags 1 10 (by decide) (by decide)
      ⟨_, h1, rfl⟩ (by decide) ⟨_, h10, rfl⟩ (by decide) exactResults_sixTags
  have havg : averageCount sixTags = 11 / 2 := by
    norm_num [averageCount, sixTags, tagsOf]
  obtain ⟨hasc, _, hne⟩ := hcls (by decide)
  refine ⟨?_, hasc, hne _ h1 _ h10 rfl rfl⟩
  rw [hthr, havg]
  norm_num

/-- C11 as stated fails: for the tag counts 1, 2 (smallest 1, largest 2, average
1.5) the third threshold of `buildPopularityMap` is 1.5000000000000002, not the
average, and the sixth is 2.0000000000000004, not the largest count: the
division of 0.5 by 3 and the sums are rounded. -/
theorem buildPopularityMap_thresholds_rounded :
    averageCount twoTags = 3 / 2 ∧
    popularityThresholds twoTags =
      [5254199565265579 / 4503599627370496, 3002399751580331 / 2251799813685248, 6755399441055745 / 4503599627370496,
       1876499844737707 / 1125899906842624, 8256599316845911 / 4503599627370496, 4503599627370497 / 2251799813685248] ∧
    (popularityThresholds twoTags)[2]? ≠ some (averageCount twoTags) ∧
    (popularityThresholds twoTags)[5]? ≠ some 2 := by
  have havg : averageCount twoTags = 3 / 2 := by
    norm_num [averageCount, twoTags, tagsOf]
  refine ⟨havg, popularityThresholds_twoTags, ?_, ?_⟩
  · rw [popularityThresholds_twoTags, havg]
    norm_num
  · rw [popularityThresholds_twoTags]
    norm_num

/-! ## The class `displayTagCloud` assigns -/

theorem integerMap_keys : integerMap.keys = [3, 5, 7, 9, 11, 13] := by
  norm_num [Hash.keys, integerMap, isArrayIndex, List.insertionSort, List.orderedInsert]

/-- C12 as stated fails: in the popularity map of the tag counts 1, 4, 10, 13,
whose thresholds 3, 5, 7, 9, 11, 13 are enumerated in ascending order, the tag of
count 4 gets the class of the threshold 3, "notPopular"; the first threshold
`>= 4` in ascending order is 5, whose label is "notVeryPopular". -/
theorem liClass_not_first_threshold_above :
    buildPopularityMap (tagsOf [1, 4, 10, 13]) = integerMap ∧
    integerMap.keys = [3, 5, 7, 9, 11, 13] ∧
    liClass integerMap 4 = some "notPopular" ∧
    specClass integerMap.entries 4 = some "notVeryPopular" ∧
    liClass integerMap 4 ≠ specClass integerMap.entries 4 := by
  have h1 : buildPopularityMap (tagsOf [1, 4, 10, 13]) = integerMap := by
    rw [buildPopularityMap_eq_foldl, popularityThresholds_fourTags]
    norm_num [popularityLevels, Hash.set, integerMap]
  have h2 : liClass integerMap 4 = some "notPopular" := by
    norm_num [liClass, integerMap_keys, pickLevel, Hash.get, integerMap]
  have h3 : specClass integerMap.entries 4 = some "notVeryPopular" := by
    norm_num [specClass, integerMap]
  refine ⟨h1, integerMap_keys, h2, h3, ?_⟩
  rw [h2, h3]
  decide

/-- C12, amended: for a popularity map whose `keys()` enumerates the thresholds
in ascending order and every tag count, the class `displayTagCloud` assigns is
the label of the highest threshold that is `<= count`, and the label of the
lowest threshold when no threshold is `<= count`. -/
theorem liClass_highest_threshold_below (map : Hash) (count : Int)
    (hasc : map.keys.Pairwise (fun a b => a < b)) :
    (∀ k ∈ map.keys, k ≤ (count : ℚ) → (∀ x ∈ map.keys, x ≤ (count : ℚ) → x ≤ k) →
      liClass map count = map.get k) ∧
    (∀ k, map.keys.head? = some k → (∀ x ∈ map.keys, (count : ℚ) < x) →
      liClass map count = map.get k) := by
  have hdesc : map.keys.reverse.Pairwise (fun a b => b < a) := List.pairwise_reverse.2 hasc
  constructor
  · intro k hk hle hmax
    exact pickLevel_descending map _ _ hdesc k (List.mem_reverse.2 hk) hle
      (fun x hx => hmax x (List.mem_reverse.1 hx))
  · intro k hk hall
    exact pickLevel_last map _ _ k (by rw [List.getLast?_reverse]; exact hk)
      (fun x hx => hall x (List.mem_reverse.1 hx))

/-- In the map with thresholds 3, 5, .., 13 a tag of count 4 gets the class of
the threshold 3. -/
theorem liClass_highest_threshold_below_witness :
    liClass integerMap 4 = integerMap.get 3 :=
  (liClass_highest_threshold_below integerMap 4
    (by rw [integerMap_keys]; norm_num)).1 3
    (by rw [integerMap_keys]; norm_num) (by norm_num)
    (by
      intro x hx hle
      rw [integerMap_keys] at hx
      simp only [List.mem_cons, List.mem_singleton, List.not_mem_nil, or_false] at hx
      rcases hx with h | h | h | h | h | h <;> rw [h] at hle ⊢ <;> norm_num at hle ⊢)

end LiveTable
